import Mathlib

/-!
Verification development for the bamgoo/web multi-tenant HTTP routing engine.

The Go sources (component.go, module.go, request.go, url.go and the two
unnamed context/body files) are shallowly embedded below.  Go maps
(`map[string]T`) are modelled as association lists inserted with `alSet`
(replace-on-conflict), Go `nil` versus empty slices/maps as `Option`,
arbitrary callback values (`ctxFunc`, drivers) as opaque `Nat` tokens
resolved through an environment, and the external collaborators the spec
places out of scope (argument coercion `bamgoo.Mapping`, token
verification, MIME lookup) as function parameters or boolean fields.
Strings are handled character-wise (Go indexes bytes; the two coincide on
the ASCII data the routing layer manipulates).
-/

namespace BamgooWeb

/-! ### Go values and association-list maps -/

/-- Model of a Go `Any` value as it flows through the routing layer. -/
inductive GVal where
  | vnil
  | vstr (s : String)
  | vint (n : Int)
  | vbool (b : Bool)
deriving DecidableEq, Repr

/-- Model of `fmt.Sprintf("%v", v)`. -/
def GVal.fmt : GVal → String
  | .vnil => "<nil>"
  | .vstr s => s
  | .vint n => toString n
  | .vbool b => if b then "true" else "false"

/-- Go `map[string]Any`. -/
abbrev GoMap := List (String × GVal)

/-- Go `Vars` (argument schema); the coercion rules themselves belong to the
external "Mapping" collaborator, so each entry is an opaque token. -/
abbrev Vars := List (String × Nat)

/-- Go `map[string]string`. -/
abbrev GoSMap := List (String × String)

/-- Lookup in an association-list map (`m[k]`). -/
def alLookup {β : Type} (l : List (String × β)) (k : String) : Option β :=
  match l with
  | [] => none
  | (k', v) :: t => if k' = k then some v else alLookup t k

/-- Map update (`m[k] = v`): replace an existing binding, else append. -/
def alSet {β : Type} (l : List (String × β)) (k : String) (v : β) :
    List (String × β) :=
  match l with
  | [] => [(k, v)]
  | (k', v') :: t => if k' = k then (k, v) :: t else (k', v') :: alSet t k v

/-- Key-by-key merge, the overriding map winning on conflicts
(`for k, v := range over { base[k] = v }`). -/
def alMerge {β : Type} (base over : List (String × β)) : List (String × β) :=
  over.foldl (fun acc p => alSet acc p.1 p.2) base

/-- The storage policy shared by every registration point: with the global
override flag a later registration replaces, otherwise first wins. -/
def storeKV {β : Type} (ov : Bool) (t : List (String × β)) (k : String)
    (v : β) : List (String × β) :=
  if ov then alSet t k v
  else if (alLookup t k).isSome then t else alSet t k v

/-! ### Shared string utilities from the source -/

/-- Model of `bamgoo.DEFAULT`, the reserved default site/name. -/
def goDEFAULT : String := "default"

/-- Character-wise split (models `strings.Split` with a one-character
separator). -/
def splitCharAux (sep : Char) : List Char → List Char → List (List Char)
  | [], acc => [acc.reverse]
  | c :: t, acc =>
      if c = sep then acc.reverse :: splitCharAux sep t []
      else splitCharAux sep t (c :: acc)

def goSplit (s : String) (sep : Char) : List String :=
  (splitCharAux sep s.data []).map List.asString

/-- Model of `strings.ToLower` (character-wise; the engine's data is
ASCII). -/
def sLower (s : String) : String := ⟨s.data.map Char.toLower⟩

/-- Model of `strings.TrimSpace`. -/
def sTrim (s : String) : String :=
  ⟨((s.data.dropWhile Char.isWhitespace).reverse.dropWhile
      Char.isWhitespace).reverse⟩

/-- Whether the first character list is a prefix of the second. -/
def isPreL : List Char → List Char → Bool
  | [], _ => true
  | _ :: _, [] => false
  | a :: as, b :: bs => a = b && isPreL as bs

/-- Model of `strings.HasPrefix`. -/
def sStarts (s p : String) : Bool := isPreL p.data s.data

/-- Model of `strings.HasSuffix`. -/
def sEnds (s p : String) : Bool := isPreL p.data.reverse s.data.reverse

/-- Model of `strings.Contains` for one character. -/
def sHas (s : String) (c : Char) : Bool := s.data.any (· = c)

/-- Lexicographic byte order (Go `sort.Strings` comparison). -/
def lexLe : List Char → List Char → Bool
  | [], _ => true
  | _ :: _, [] => false
  | a :: as, b :: bs => if a = b then lexLe as bs else decide (a < b)

/-- Model of `splitPrefix` from module.go: lowercase, split a dotted name
into site prefix and remainder, defaulting the site part. -/
def splitPre (name : String) : String × String :=
  let name := sLower name
  if name = "" then ("", "")
  else if sHas name '.' then
    match goSplit name '.' with
    | [] => (goDEFAULT, name)
    | first :: rest => (first, String.intercalate "." rest)
  else (goDEFAULT, name)

/-! `strings.SplitN(name, ".", 2)` returns the part before the first dot and
everything after it; `goSplit` followed by re-joining the tail realises
exactly that. -/

/-- Digit emission of `strconv.Itoa` with fuel (any fuel bounding the digit
count yields the decimal digits, most significant first). -/
def itoaCore : Nat → Nat → List Char
  | 0, _ => []
  | fuel + 1, n =>
    if n < 10 then [Nat.digitChar n]
    else itoaCore fuel (n / 10) ++ [Nat.digitChar (n % 10)]

/-- Model of `strconv.Itoa` on naturals. -/
def itoa (n : Nat) : String := ⟨itoaCore (n + 1) n⟩

/-! ### Route declarations (component.go) -/

/-- Fields of a per-method override (`Routing` entry).  The Go type is the
same `Router` struct; the expansion reads only these fields of an override,
so the model keeps exactly those (a nested `Routing` inside an override is
never consulted by the source). -/
structure MethodCfg where
  name : String := ""
  desc : String := ""
  nullable : Bool := false
  args : Option Vars := none
  data : Option Vars := none
  setting : Option GoMap := none
  action : Option Nat := none
  actions : Option (List Nat) := none
  found : Option Nat := none
  error : Option Nat := none
  failed : Option Nat := none
  denied : Option Nat := none
deriving DecidableEq, Repr

/-- The `Router` declaration/record struct.  `ctxFunc` values are opaque
tokens; Go `nil` slices and maps are `none`. -/
structure RouterCfg where
  method : String := ""
  uri : String := ""
  uris : Option (List String) := none
  name : String := ""
  desc : String := ""
  nullable : Bool := false
  args : Option Vars := none
  data : Option Vars := none
  setting : Option GoMap := none
  routing : Option (List (String × MethodCfg)) := none
  actions : Option (List Nat) := none
  action : Option Nat := none
  sign : Bool := false
  auth : Bool := false
  found : Option Nat := none
  error : Option Nat := none
  failed : Option Nat := none
  denied : Option Nat := none
deriving DecidableEq, Repr

/-- URI-list normalization at the head of `expandRouter`: a missing or empty
`Uris` list becomes `[Uri]`; otherwise a non-empty `Uri` is appended. -/
def normUris (cfg : RouterCfg) : List String :=
  match cfg.uris with
  | none => [cfg.uri]
  | some l =>
      if l = [] then [cfg.uri]
      else if cfg.uri ≠ "" then l ++ [cfg.uri] else l

/-- The per-method record built inside the `config.Routing` loop of
`expandRouter`: copy the declaration, reset the per-method fields, deep-copy
and merge `Args`/`Data`/`Setting` (override winning key-by-key), then apply
the override's non-empty/non-nil fields. -/
def mkRealConfig (base : RouterCfg) (method : String) (mc : MethodCfg) :
    RouterCfg :=
  { base with
    method := method
    nullable := mc.nullable
    routing := none
    action := mc.action
    actions := mc.actions
    name := if mc.name ≠ "" then mc.name else base.name
    desc := if mc.desc ≠ "" then mc.desc else base.desc
    args :=
      match base.args, mc.args with
      | none, none => none
      | some a, none => some a
      | none, some b => some (alMerge [] b)
      | some a, some b => some (alMerge a b)
    data :=
      match base.data, mc.data with
      | none, none => none
      | some a, none => some a
      | none, some b => some (alMerge [] b)
      | some a, some b => some (alMerge a b)
    setting :=
      match base.setting, mc.setting with
      | none, none => none
      | some a, none => some a
      | none, some b => some (alMerge [] b)
      | some a, some b => some (alMerge a b)
    found := match mc.found with | some f => some f | none => base.found
    error := match mc.error with | some f => some f | none => base.error
    failed := match mc.failed with | some f => some f | none => base.failed
    denied := match mc.denied with | some f => some f | none => base.denied }

/-- Model of `expandRouter` (component.go): normalize the URI list, emit one
record named `<routerName>.<method>` per method override, then one record
named `<routerName>.*` if a generic action is present. -/
def expandRouter (routerName : String) (cfg0 : RouterCfg) :
    List (String × RouterCfg) :=
  let cfg := { cfg0 with uris := some (normUris cfg0) }
  let routers : List (String × RouterCfg) :=
    match cfg.routing with
    | none => []
    | some rl =>
        rl.foldl
          (fun acc p =>
            alSet acc (routerName ++ "." ++ p.1) (mkRealConfig cfg p.1 p.2))
          []
  let cfg := { cfg with routing := none }
  match cfg.action with
  | some _ => alSet routers (routerName ++ ".*") cfg
  | none => routers

/-- Model of `storeRouters`: insert each expanded record into the site's
route table under the override/first-wins policy, lowercasing the key. -/
def storeRouters (ov : Bool) (target routers : List (String × RouterCfg)) :
    List (String × RouterCfg) :=
  routers.foldl (fun t p => storeKV ov t (sLower p.1) p.2) target

/-- Model of `applyRouter`. -/
def applyRouter (ov : Bool) (siteRouters : List (String × RouterCfg))
    (routerName : String) (cfg : RouterCfg) : List (String × RouterCfg) :=
  storeRouters ov siteRouters (expandRouter routerName cfg)

/-! ### Route records / `Info` (module.go `buildSite`) -/

/-- The `Info` record registered per concrete (method, URI) binding. -/
structure Info where
  method : String := ""
  uri : String := ""
  router : String := ""
  args : Option Vars := none
deriving DecidableEq, Repr

/-- The per-URI record name of `Module.buildSite`: the first URI keeps the
record name, later ones get a `.<index>` suffix (indices start at 1
because `i > 0` guards the suffix). -/
def nameOf (k : String) (i : Nat) : String :=
  if i = 0 then k else k ++ "." ++ itoa i

/-- The per-URI emission loop of `Module.buildSite`: for each stored route
record, one `Info` per URI, named by `nameOf`. -/
def buildRouterInfos (routers : List (String × RouterCfg)) :
    List (String × Info) :=
  routers.foldl
    (fun acc p =>
      ((p.2.uris.getD []).enum).foldl
        (fun acc2 iu =>
          alSet acc2 (nameOf p.1 iu.1)
            { method := p.2.method, uri := iu.2, router := p.1,
              args := p.2.args })
        acc)
    []

/-- All route-record names produced for one declaration: expansion followed
by per-URI record emission. -/
def routeRecordNames (routerName : String) (cfg : RouterCfg) : List String :=
  (buildRouterInfos (expandRouter routerName cfg)).map Prod.fst

/-! ### Host normalization and site resolution (module.go) -/

/-- First index of a character in a character list. -/
def chIdx (c : Char) : List Char → Option Nat
  | [] => none
  | x :: t => if x = c then some 0 else (chIdx c t).map (· + 1)

/-- Last index of a character in a character list. -/
def chLastIdx (c : Char) (l : List Char) : Option Nat :=
  match chIdx c l.reverse with
  | none => none
  | some i => some (l.length - 1 - i)

/-- Model of `net.SplitHostPort`, returning the host part on success and
`none` where Go reports an error (missing port, too many colons, stray
brackets); the caller keeps the original string on error. -/
def goSplitHostPort (s : String) : Option String :=
  let l := s.data
  match chLastIdx ':' l with
  | none => none
  | some i =>
    match l with
    | '[' :: _ =>
      (match chIdx ']' l with
       | none => none
       | some e =>
         if e + 1 = l.length then none
         else if e + 1 ≠ i then none
         else if (l.drop 1).any (· = '[') then none
         else if (l.drop (e + 1)).any (· = ']') then none
         else some ⟨(l.take e).drop 1⟩)
    | _ =>
      let hostL := l.take i
      if hostL.any (· = ':') then none
      else if l.any (· = '[') then none
      else if l.any (· = ']') then none
      else some ⟨hostL⟩

/-- Model of `normalizeHost`: lowercase and trim, strip an `http://` or
`https://` scheme (the source strips past the first `://`, which for either
recognized scheme sits right after it), cut at the first `/`, and drop a
port via `net.SplitHostPort` when a colon is present. -/
def normalizeHost (host : String) : String :=
  let host := sTrim (sLower host)
  if host = "" then ""
  else
    let host :=
      if sStarts host "http://" then host.drop 7
      else if sStarts host "https://" then host.drop 8
      else host
    let host :=
      match chIdx '/' host.data with
      | some i => ⟨host.data.take i⟩
      | none => host
    let host :=
      if sHas host ':' then
        match goSplitHostPort host with
        | some h => h
        | none => host
      else host
    sTrim host

/-- The wildcard-retry loop of `resolveSiteByHost`: for `i` from 1, look up
`*.<labels from i on>`; the first hit wins. -/
def wildLookup (tbl : GoSMap) : List String → String
  | [] => ""
  | _ :: rest =>
    if rest = [] then ""
    else
      match alLookup tbl ("*." ++ String.intercalate "." rest) with
      | some s => s
      | none => wildLookup tbl rest

/-- Model of `Module.resolveSiteByHost`. -/
def resolveSiteByHost (tbl : GoSMap) (host : String) : String :=
  let host := normalizeHost host
  if host = "" then ""
  else
    match alLookup tbl host with
    | some site => site
    | none => wildLookup tbl (goSplit host '.')

/-- The site-selection part of `Module.Serve`: a valid, non-default site
prefix of the dispatch name wins; otherwise resolve by host; otherwise use
the configured default site. -/
def serveSiteSelect (sites : List String) (defaultSite : String)
    (tbl : GoSMap) (name host : String) : String :=
  let siteName := (splitPre name).1
  let selected :=
    if siteName ≠ "" ∧ siteName ≠ goDEFAULT ∧ siteName ∈ sites then siteName
    else ""
  let selected := if selected = "" then resolveSiteByHost tbl host else selected
  if selected = "" then defaultSite else selected

/-! ### Module registry and registration entry points (module.go,
component.go) -/

/-- The `Filter` declaration (stage callbacks as opaque tokens). -/
structure Filter where
  name : String := ""
  desc : String := ""
  serve : Option Nat := none
  request : Option Nat := none
  execute : Option Nat := none
  response : Option Nat := none
deriving DecidableEq, Repr

/-- The `Handler` declaration (terminal-outcome callbacks as tokens). -/
structure Handler where
  name : String := ""
  desc : String := ""
  found : Option Nat := none
  error : Option Nat := none
  failed : Option Nat := none
  denied : Option Nat := none
deriving DecidableEq, Repr

/-- The `Config` struct (durations as integer nanoseconds). -/
structure Config where
  driver : String := ""
  port : Int := 0
  host : String := ""
  certFile : String := ""
  keyFile : String := ""
  charset : String := ""
  cookie : String := ""
  token : Bool := false
  expire : Int := 0
  crypto : Bool := false
  maxAge : Int := 0
  httpOnly : Bool := false
  upload : String := ""
  static : String := ""
  shared : String := ""
  defaults : List String := []
  domain : String := ""
  domains : List String := []
  setting : Option GoMap := none
deriving DecidableEq, Repr

/-- The registry portion of the `Module` state mutated by the registration
entry points (drivers as opaque tokens). -/
structure ModuleSt where
  opened : Bool := false
  drivers : List (String × Nat) := []
  configs : List (String × Config) := []
  routers : List (String × RouterCfg) := []
  filters : List (String × Filter) := []
  handlers : List (String × Handler) := []
deriving DecidableEq, Repr

/-- Model of `Module.RegisterDriver`; `none` models the panic on a nil
driver.  The source has no `opened` guard here. -/
def registerDriver (ov : Bool) (m : ModuleSt) (name : String)
    (driver : Option Nat) : Option ModuleSt :=
  match driver with
  | none => none
  | some d =>
    let name := if name = "" then goDEFAULT else name
    some { m with drivers := storeKV ov m.drivers name d }

/-- Model of `Module.RegisterRouter` (module-level variant). -/
def registerRouter (ov : Bool) (m : ModuleSt) (name : String)
    (cfg : RouterCfg) : ModuleSt :=
  if m.opened then m
  else { m with routers := storeKV ov m.routers (sLower name) cfg }

/-- Model of `Module.RegisterFilter` (module-level variant). -/
def registerFilter (ov : Bool) (m : ModuleSt) (name : String) (f : Filter) :
    ModuleSt :=
  if m.opened then m
  else { m with filters := storeKV ov m.filters (sLower name) f }

/-- Model of `Module.RegisterHandler` (module-level variant). -/
def registerHandler (ov : Bool) (m : ModuleSt) (name : String) (h : Handler) :
    ModuleSt :=
  if m.opened then m
  else { m with handlers := storeKV ov m.handlers (sLower name) h }

/-- Model of `Module.RegisterConfig`. -/
def registerConfig (ov : Bool) (m : ModuleSt) (name : String) (c : Config) :
    ModuleSt :=
  if m.opened then m
  else
    let name := if name = "" then goDEFAULT else name
    { m with configs := storeKV ov m.configs (sLower name) c }

/-- Model of `Module.RegisterConfigs`. -/
def registerConfigs (ov : Bool) (m : ModuleSt)
    (cs : List (String × Config)) : ModuleSt :=
  cs.foldl (fun acc p => registerConfig ov acc p.1 p.2) m

/-! ### Request context and pipeline state machine (the unnamed context
file, component.go serve/terminal chains, request.go stages)

Following the source's own design note, the mutable `nexts`/`index` cursor
is modelled as an explicit queue handed to a runner; each pipeline level
(`serve`, `request`, `execute`, and the four terminal chains) clears and
rebuilds its own queue, so queues are arguments of the corresponding
runners.  User callbacks (`ctxFunc`) are opaque tokens resolved by an
environment `Env`; a callback returns the updated context and whether it
called `ctx.Next()`. -/

/-- The four terminal outcomes. -/
inductive Outcome where
  | found | error | failed | denied
deriving DecidableEq, Repr

/-- Default status code set by each terminal chain when the code is unset
(`StatusNotFound` / `StatusInternalServerError` / `StatusBadRequest` /
`StatusUnauthorized`). -/
def Outcome.code : Outcome → Int
  | .found => 404
  | .error => 500
  | .failed => 400
  | .denied => 401

/-- Message written by each chain's built-in default handler. -/
def Outcome.msg : Outcome → String
  | .found => "Not Found"
  | .error => "Internal Server Error"
  | .failed => "Bad Request"
  | .denied => "Unauthorized"

/-- The `Cross` (CORS policy) struct. -/
structure Cross where
  allow : Bool := false
  method : String := ""
  methods : List String := []
  origin : String := ""
  origins : List String := []
  header : String := ""
  headers : List String := []
deriving DecidableEq, Repr

/-- The built site state consumed by the pipeline: CORS policy plus the
filter and terminal-handler chains assembled by `buildSite` (callback
tokens, in table order). -/
structure SiteH where
  cross : Cross := {}
  serveFilters : List Nat := []
  requestFilters : List Nat := []
  executeFilters : List Nat := []
  responseFilters : List Nat := []
  foundHandlers : List Nat := []
  errorHandlers : List Nat := []
  failedHandlers : List Nat := []
  deniedHandlers : List Nat := []
deriving DecidableEq, Repr

/-- The payload variant stored in `ctx.Body` (the tagged union of the body
types in the response file; binary bytes as numbers, an open buffer as an
opaque token). -/
inductive BodyV where
  | goto (url : String)
  | text (s : String)
  | html (s : String)
  | json (v : GVal)
  | jsonp (v : GVal) (callback : String)
  | echo (code : Int) (text : String) (data : Option GoMap)
  | file (path name : String)
  | binary (bytes : List Nat) (name : String)
  | buffer (tok : Nat) (size : Int) (name : String)
  | status (s : String)
deriving DecidableEq, Repr

/-- Model of a `Res` result value (the external result type exposes
`Fail()` and an identifying state). -/
structure ResV where
  fail : Bool := false
  tag : String := ""
deriving DecidableEq, Repr

/-- `bamgoo.Unsigned`. -/
def resUnsigned : ResV := { fail := true, tag := "unsigned" }

/-- `bamgoo.Unauthed`. -/
def resUnauthed : ResV := { fail := true, tag := "unauthed" }

/-- Built-in pipeline stages of the request-level queue. -/
inductive StageT where
  | crossing | parsing | authorizing | arguing | execute
deriving DecidableEq, Repr

/-- Ghost trace events recorded by the interpreter: a user callback ran, a
built-in stage ran, or a terminal chain was entered (with the result
attached at entry). -/
inductive Ev where
  | act (n : Nat)
  | stg (t : StageT)
  | chain (o : Outcome) (res : Option ResV)
deriving DecidableEq, Repr

/-- The per-request `Context` (fields the routing/dispatch engine reads and
writes; the queue cursor lives in the runners, the ghost `trace` records
what ran). -/
structure Ctx where
  config : RouterCfg := {}
  name : String := ""
  method : String := ""
  reqHeaders : GoSMap := []
  headers : GoSMap := []
  params : GoMap := []
  query : GoMap := []
  form : GoMap := []
  value : GoMap := []
  args : GoMap := []
  code : Int := 0
  typ : String := ""
  body : Option BodyV := none
  result : Option ResV := none
  signed : Bool := false
  authed : Bool := false
  trace : List Ev := []
deriving DecidableEq, Repr

/-- `ctx.Header(key)` (read side: the request header). -/
def Ctx.headerGet (c : Ctx) (k : String) : String :=
  (alLookup c.reqHeaders k).getD ""

/-- `ctx.Header(key, value)` (write side: an outgoing header). -/
def Ctx.headerSet (c : Ctx) (k v : String) : Ctx :=
  { c with headers := alSet c.headers k v }

/-- `ctx.Text(s, code)`: replace the payload with plain text; a positive
code argument overrides the stored code, the type tag defaults to text. -/
def Ctx.setText (c : Ctx) (s : String) (code : Int) : Ctx :=
  { c with
    code := if code > 0 then code else c.code
    typ := if c.typ = "" then "text" else c.typ
    body := some (.text s) }

/-- An environment resolving callback tokens: the updated context and
whether the callback advanced the chain (called `ctx.Next()`). -/
abbrev Env := Nat → Ctx → Ctx × Bool

/-- Stages appearing in a terminal-chain or execute-level queue. -/
inductive CStage where
  | act (n : Nat)
  | cdefault (o : Outcome)
deriving DecidableEq, Repr

/-- Queue runner (the `nexts`/`index`/`Next` mechanism): run stages in
order while each advances; a built-in default handler writes its plain-text
message and does not advance. -/
def runCQ (env : Env) : List CStage → Ctx → Ctx
  | [], c => c
  | .act n :: rest, c =>
    let c := { c with trace := c.trace ++ [.act n] }
    let r := env n c
    if r.2 then runCQ env rest r.1 else r.1
  | .cdefault o :: _, c => c.setText o.msg o.code

/-- Route-level override handler for an outcome (`ctx.Config.Found` etc.). -/
def overrideOf (cfg : RouterCfg) : Outcome → Option Nat
  | .found => cfg.found
  | .error => cfg.error
  | .failed => cfg.failed
  | .denied => cfg.denied

/-- Site-registered handlers for an outcome. -/
def handlersOf (site : SiteH) : Outcome → List Nat
  | .found => site.foundHandlers
  | .error => site.errorHandlers
  | .failed => site.failedHandlers
  | .denied => site.deniedHandlers

/-- The queue a terminal chain builds: the route-specific override first
when present, then the site handlers in order, then the built-in default. -/
def chainQueue (o : Outcome) (cfg : RouterCfg) (site : SiteH) : List CStage :=
  (match overrideOf cfg o with
   | some n => [CStage.act n]
   | none => []) ++
  (handlersOf site o).map CStage.act ++ [CStage.cdefault o]

/-- Entry step of a terminal chain: clear the queue (implicit here), set
the default status code if unset, record the entry in the ghost trace. -/
def chainEnter (o : Outcome) (c : Ctx) : Ctx :=
  { c with
    code := if c.code ≤ 0 then o.code else c.code
    trace := c.trace ++ [.chain o c.result] }

/-- Model of `Site.found` / `Site.error` / `Site.failed` / `Site.denied`:
enter the chain and run its queue. -/
def chainRun (env : Env) (o : Outcome) (site : SiteH) (c : Ctx) : Ctx :=
  runCQ env (chainQueue o c.config site) (chainEnter o c)

/-! #### Request-level stages (request.go) -/

/-- Model of `splitCSV`. -/
def splitCSV (v : String) : List String :=
  (goSplit v ',').filterMap fun p =>
    let p := sTrim (sLower p)
    if p = "" then none else some p

/-- Model of `containsAll`: every got item lies in the normalized allow
set; an empty got list passes. -/
def containsAll (got allow : List String) : Bool :=
  if got = [] then true
  else got.all fun v =>
    allow.any fun a =>
      let a2 := sLower (sTrim a)
      a2 != "" && a2 == v

/-- Model of `containsOrigin`: exact match or prefix match against each
normalized non-empty allowed origin. -/
def containsOrigin (origins : List String) (origin : String) : Bool :=
  let origin := sLower (sTrim origin)
  origins.any fun item =>
    let item := sLower (sTrim item)
    item != "" && (origin == item || sStarts origin item)

/-- Model of `containsString`. -/
def containsString (vals : List String) (target : String) : Bool :=
  let target := sLower (sTrim target)
  vals.any fun v => sLower (sTrim v) == target

/-- The `Access-Control-*` header attachment of `Site.crossing`:
credentials always, then allow-origin / allow-methods / allow- and
expose-headers for whichever request headers are present. -/
def corsHeaders (c : Ctx) (origin method header : String) : Ctx :=
  let c := c.headerSet "Access-Control-Allow-Credentials" "true"
  let c :=
    if origin != "" then c.headerSet "Access-Control-Allow-Origin" origin
    else c
  let c :=
    if method != "" then c.headerSet "Access-Control-Allow-Methods" method
    else c
  if header != "" then
    (c.headerSet "Access-Control-Allow-Headers" header).headerSet
      "Access-Control-Expose-Headers" header
  else c

/-- The origin check of `Site.crossing`: a wildcard or unset policy origin
passes everything; otherwise a non-empty request origin must match the
allowed origins. -/
def originPassedB (cross : Cross) (origin : String) : Bool :=
  (cross.origin == "*" || cross.origin == "" ||
    containsString cross.origins "*") ||
  (origin != "" && containsOrigin cross.origins origin)

/-- The requested-method check of `Site.crossing`. -/
def methodPassedB (cross : Cross) (method : String) : Bool :=
  (cross.method == "*" || cross.method == "" ||
    containsString cross.methods "*") ||
  (method == "" || containsAll (splitCSV method) cross.methods)

/-- The requested-headers check of `Site.crossing`. -/
def headerPassedB (cross : Cross) (header : String) : Bool :=
  (cross.header == "*" || cross.header == "" ||
    containsString cross.headers "*") ||
  (header == "" || containsAll (splitCSV header) cross.headers)

/-- Model of `Site.crossing` (CORS negotiation): when the policy allows and
origin, requested method and requested headers all pass, attach the
`Access-Control-*` headers; an `OPTIONS` request is then answered directly
with a 200 text response and the chain is not advanced. -/
def crossingImpl (site : SiteH) (c : Ctx) : Ctx × Bool :=
  let c := { c with trace := c.trace ++ [Ev.stg StageT.crossing] }
  let cross := site.cross
  if cross.allow then
    let origin := c.headerGet "Origin"
    let originPassed := originPassedB cross origin
    let method := c.headerGet "Access-Control-Request-Method"
    let methodPassed := methodPassedB cross method
    let header := c.headerGet "Access-Control-Request-Headers"
    let headerPassed := headerPassedB cross header
    if originPassed && methodPassed && headerPassed then
      let c := corsHeaders c origin method header
      if c.method == "OPTIONS" then
        (c.setText "cross domain access allowed." 200, false)
      else (c, true)
    else (c, true)
  else (c, true)

/-- Model of `Site.parsing` restricted to its effect on the value map: URL
parameters, then query values, then (for non-GET requests) form/body
values flow into `ctx.Value`.  The I/O side (multipart decoding, streaming
uploads to temp files) belongs to external collaborators and does not
affect the dispatch claims. -/
def parsingImpl (c : Ctx) : Ctx × Bool :=
  let c := { c with trace := c.trace ++ [Ev.stg StageT.parsing] }
  let c := { c with value := alMerge c.value c.params }
  let c := { c with value := alMerge c.value c.query }
  let c :=
    if c.method ≠ "GET" then { c with value := alMerge c.value c.form } else c
  (c, true)

/-- Model of `Site.authorizing`: a route requiring a signature (resp.
authentication) diverts an unsigned (resp. unauthenticated) request into
the denied chain and does not advance. -/
def authorizingImpl (env : Env) (site : SiteH) (c : Ctx) : Ctx × Bool :=
  let c := { c with trace := c.trace ++ [Ev.stg StageT.authorizing] }
  if c.config.sign && !c.signed then
    (chainRun env .denied site { c with result := some resUnsigned }, false)
  else if c.config.auth && !c.authed then
    (chainRun env .denied site { c with result := some resUnauthed }, false)
  else (c, true)

/-- The external argument coercion `bamgoo.Mapping`: from the schema and
the supplied values it yields a result (`none` for a nil result) and the
coerced output map. -/
abbrev MappingFn := Vars → GoMap → Option ResV × GoMap

/-- Model of `Site.arguing`: with an argument schema present, run the
coercion; on failure attach the result, divert into the failed
(bad-request) chain and do not advance; otherwise merge the coerced values
into `ctx.Args`. -/
def arguingImpl (mapping : MappingFn) (env : Env) (site : SiteH) (c : Ctx) :
    Ctx × Bool :=
  let c := { c with trace := c.trace ++ [Ev.stg StageT.arguing] }
  match c.config.args with
  | some av =>
    let ro := mapping av c.value
    match ro.1 with
    | some r =>
      if r.fail then
        (chainRun env .failed site { c with result := some r }, false)
      else ({ c with args := alMerge c.args ro.2 }, true)
    | none => ({ c with args := alMerge c.args ro.2 }, true)
  | none => (c, true)

/-- The queue `Site.execute` builds: execute-level filters, then the
route's action list when non-empty, then the single action when present. -/
def executeQueue (site : SiteH) (cfg : RouterCfg) : List CStage :=
  site.executeFilters.map CStage.act ++
  (match cfg.actions with
   | some l => if l ≠ [] then l.map CStage.act else []
   | none => []) ++
  (match cfg.action with
   | some a => [CStage.act a]
   | none => [])

/-- Model of `Site.execute`: clear the queue and run the execute-level
queue; the parent queue cannot continue past it (the cursor was cleared). -/
def executeImpl (env : Env) (site : SiteH) (c : Ctx) : Ctx × Bool :=
  let c := { c with trace := c.trace ++ [Ev.stg StageT.execute] }
  (runCQ env (executeQueue site c.config) c, false)

/-- One step of the request-level queue. -/
def reqStep (env : Env) (site : SiteH) (mapping : MappingFn) :
    StageT → Ctx → Ctx × Bool
  | .crossing, c => crossingImpl site c
  | .parsing, c => parsingImpl c
  | .authorizing, c => authorizingImpl env site c
  | .arguing, c => arguingImpl mapping env site c
  | .execute, c => executeImpl env site c

/-- Runner for the request-level queue. -/
def runRQ (env : Env) (site : SiteH) (mapping : MappingFn) :
    List StageT → Ctx → Ctx
  | [], c => c
  | s :: rest, c =>
    let r := reqStep env site mapping s c
    if r.2 then runRQ env site mapping rest r.1 else r.1

/-- Model of `Site.request`: the fixed request-level stage queue. -/
def siteRequest (env : Env) (site : SiteH) (mapping : MappingFn) (c : Ctx) :
    Ctx :=
  runRQ env site mapping [.crossing, .parsing, .authorizing, .arguing,
    .execute] c

/-! ### Response encoder (the unnamed body file) -/

/-- Model of `net/http.StatusText` on the codes this layer uses (Go
returns the empty string for an unknown code). -/
def statusText (code : Int) : String :=
  if code = 200 then "OK"
  else if code = 302 then "Found"
  else if code = 400 then "Bad Request"
  else if code = 401 then "Unauthorized"
  else if code = 404 then "Not Found"
  else if code = 500 then "Internal Server Error"
  else ""

/-- What the encoder writes to the wire.  `notFoundPage` is
`http.NotFound` (the standard 404 page), `written` a status line plus
payload text, `httpError` an `http.Error` reply; file/binary/buffer/echo
outputs carry their payload structurally (their serialization is external
I/O or, for echo, includes the wall-clock time). -/
inductive Resp where
  | notFoundPage
  | written (code : Int) (text : String)
  | redirect (url : String)
  | httpError (code : Int) (msg : String)
  | fileServe (path : String)
  | binaryOut (code : Int) (bytes : List Nat)
  | bufferOut (code : Int) (tok : Nat)
  | echoOut (code : Int) (ecode : Int) (text : String) (data : Option GoMap)
deriving DecidableEq, Repr

/-- Model of `Site.bodyDefault`. -/
def bodyDefaultImpl (c : Ctx) : Resp :=
  if c.code ≤ 0 then .notFoundPage else .written c.code (statusText c.code)

/-- Model of `Site.bodyStatus`. -/
def bodyStatusImpl (c : Ctx) (s : String) : Resp :=
  if c.code ≤ 0 then .notFoundPage
  else .written c.code (if s = "" then statusText c.code else s)

/-- Model of `Site.body`, the encoder entry point: normalize an unset
status code to 200, write headers and cookies (outside the modelled
output), then dispatch on the payload variant.  JSON serialization is the
external `marshal`; a serialization error yields the immediate 500
`http.Error` reply. -/
def bodyRun (marshal : GVal → Except String String) (c0 : Ctx) : Resp :=
  let c := { c0 with code := if c0.code ≤ 0 then 200 else c0.code }
  match c.body with
  | none => bodyDefaultImpl c
  | some (.goto url) => .redirect url
  | some (.text s) => .written c.code s
  | some (.html s) => .written c.code s
  | some (.json v) =>
    (match marshal v with
     | .ok s => .written c.code s
     | .error e => .httpError 500 e)
  | some (.jsonp v cb) =>
    (match marshal v with
     | .ok s => .written c.code (cb ++ "(" ++ s ++ ");")
     | .error e => .httpError 500 e)
  | some (.echo ecode text data) => .echoOut c.code ecode text data
  | some (.file path _) => .fileServe path
  | some (.binary bytes _) => .binaryOut c.code bytes
  | some (.buffer tok _ _) => .bufferOut c.code tok
  | some (.status s) => bodyStatusImpl c s

/-! ### Reverse URL builder (url.go) -/

/-- The site configuration fields the URL builder reads. -/
structure SiteUrlCfg where
  domain : String := ""
  domains : List String := []
  host : String := ""
  port : Int := 0
deriving DecidableEq, Repr

/-- A site as seen by the URL builder: its config and its route table. -/
structure UrlSite where
  config : SiteUrlCfg := {}
  routerInfos : List (String × Info) := []
deriving DecidableEq, Repr

/-- The module's site map as seen by the URL builder. -/
structure UrlWorld where
  sites : List (String × UrlSite) := []
deriving DecidableEq, Repr

/-- The request-bound state of `webUrl` (`u.ctx`): current site and route
name. -/
structure UrlCtxB where
  siteName : String := ""
  routeName : String := ""
deriving DecidableEq, Repr

/-- Placeholder substitution, modelling
`regexp.MustCompile("\x7b[^\x7d]+\x7d").ReplaceAllStringFunc`: each
maximal `\x7bname\x7d` segment (a brace, one or more non-closing-brace
characters, a closing brace) is replaced through `f`. -/
def substCore (f : String → String) : Nat → List Char → List Char
  | 0, l => l
  | _, [] => []
  | fuel + 1, c :: rest =>
    if c = '{' then
      match chIdx '}' rest with
      | some i =>
        let inner := rest.take i
        if inner = [] then c :: substCore f fuel rest
        else (f ⟨inner⟩).data ++ substCore f fuel (rest.drop (i + 1))
      | none => c :: substCore f fuel rest
    else c :: substCore f fuel rest

def substAux (f : String → String) (l : List Char) : List Char :=
  substCore f l.length l

/-- UTF-8 bytes of a character (Go strings are byte sequences). -/
def utf8Bytes (c : Char) : List Nat :=
  let n := c.toNat
  if n < 128 then [n]
  else if n < 2048 then [192 + n / 64, 128 + n % 64]
  else if n < 65536 then
    [224 + n / 4096, 128 + n / 64 % 64, 128 + n % 64]
  else
    [240 + n / 262144, 128 + n / 4096 % 64, 128 + n / 64 % 64, 128 + n % 64]

/-- Uppercase hexadecimal digit. -/
def hexUpper (n : Nat) : Char :=
  if n < 10 then Nat.digitChar n else Char.ofNat (55 + n)

/-- Model of `url.QueryEscape`: unreserved characters kept, space becomes
`+`, every other byte percent-encoded. -/
def queryEscape (s : String) : String :=
  ⟨(s.data.map fun c =>
      if c.isAlphanum || c = '-' || c = '_' || c = '.' || c = '~' then [c]
      else if c = ' ' then ['+']
      else (utf8Bytes c).foldr
        (fun b acc => '%' :: hexUpper (b / 16) :: hexUpper (b % 16) :: acc)
        []).flatten⟩

/-- Sorted insertion in byte order (`sort.Strings`; the keys of a
`url.Values` map are distinct, so any comparison sort gives this result). -/
def insertSorted (x : String) : List String → List String
  | [] => [x]
  | y :: t => if lexLe x.data y.data then x :: y :: t else y :: insertSorted x t

/-- Model of `url.Values.Encode` for single-valued keys: keys sorted, each
`k=v` pair escaped and joined with `&`. -/
def valuesEncode (q : List (String × String)) : String :=
  let keys := (q.map Prod.fst).foldr insertSorted []
  String.intercalate "&"
    (keys.map fun k => queryEscape k ++ "=" ++ queryEscape ((alLookup q k).getD ""))

/-- Model of `webUrl.Site`: compose scheme (from the `[socket]`/`[ssl]`
options), host (domain, first extra domain, bind host or `localhost`, with
a port suffix unless default) and path. -/
def siteUrlImpl (w : UrlWorld) (name path : String) (opts : GoMap) : String :=
  let site? :=
    match alLookup w.sites name with
    | some s => some s
    | none => alLookup w.sites goDEFAULT
  match site? with
  | none => path
  | some site =>
    let host :=
      if site.config.domain ≠ "" then site.config.domain
      else
        match site.config.domains with
        | h :: _ => h
        | [] => if site.config.host ≠ "" then site.config.host else "localhost"
    let host :=
      if sHas host ':' = false ∧ site.config.port > 0 ∧
          site.config.port ≠ 80 ∧ site.config.port ≠ 443 then
        host ++ ":" ++ toString site.config.port
      else host
    let socket :=
      match alLookup opts "[socket]" with
      | some (GVal.vbool true) => true
      | _ => false
    let ssl :=
      match alLookup opts "[ssl]" with
      | some (GVal.vbool true) => true
      | _ => false
    let scheme :=
      if ssl then (if socket then "wss://" else "https://")
      else (if socket then "ws://" else "http://")
    if path = "" then scheme ++ host
    else
      let path := if sStarts path "/" = false then "/" ++ path else path
      scheme ++ host ++ path

/-- Model of `webUrl.Route`: resolve target site and route (with the
`.get.0`/`.post.0`/`.*.0` fallback lookups of the source), run the
argument coercion over the brace-keyed values, substitute placeholders
(coerced value, else raw supplied value, else empty), append remaining
values as a query string, and delegate to the absolute builder when a
`[site]` option is present.  `mapping` is the external coercion (its
result value is discarded by the source; only its output map is used). -/
def routeUrlImpl (mapping : Vars → GoMap → GoMap) (w : UrlWorld)
    (uctx : Option UrlCtxB) (name0 : String) (values : GoMap) : String :=
  let name := sLower name0
  if sStarts name "http://" || sStarts name "https://" ||
      sStarts name "ws://" || sStarts name "wss://" then name
  else
    let currSite := match uctx with | some c => c.siteName | none => ""
    let name :=
      if name = "" then
        match uctx with | some c => c.routeName | none => name
      else name
    let name :=
      if sHas name '.' = false then
        if currSite ≠ "" then currSite ++ "." ++ name
        else goDEFAULT ++ "." ++ name
      else name
    let isParam := fun (k : String) => sStarts k "\x7b" && sEnds k "\x7d"
    let isOpt := fun (k : String) => sStarts k "[" && sEnds k "]"
    let params := values.filter fun p => isParam p.1
    let options := values.filter fun p => !isParam p.1 && isOpt p.1
    let querys0 := values.filter fun p => !isParam p.1 && !isOpt p.1
    let sr := splitPre name
    let siteName :=
      if sr.1 = "*" then
        if currSite ≠ "" then currSite
        else
          match w.sites with
          | p :: _ => p.1
          | [] => sr.1
      else sr.1
    let routeName := sr.2
    let options :=
      if siteName ≠ "" ∧ siteName ≠ currSite then
        alSet options "[site]" (GVal.vstr siteName)
      else if ((match alLookup options "[site]" with
                | some v => v != GVal.vnil
                | none => false) && currSite != "") then
        alSet options "[site]" (GVal.vstr currSite)
      else options
    let site? :=
      match alLookup w.sites siteName with
      | some s => some s
      | none => alLookup w.sites goDEFAULT
    match site? with
    | none => name
    | some site =>
      let info? :=
        match alLookup site.routerInfos routeName with
        | some i => some i
        | none =>
          match alLookup site.routerInfos (routeName ++ ".get.0") with
          | some i => some i
          | none =>
            match alLookup site.routerInfos (routeName ++ ".post.0") with
            | some i => some i
            | none => alLookup site.routerInfos (routeName ++ ".*.0")
      match info? with
      | none => name
      | some info =>
        let argsConfig : Vars :=
          match info.args with
          | some a => alMerge [] a
          | none => []
        let dataArgsValues := params.foldl
          (fun acc p =>
            if isParam p.1 then alSet acc ((p.1.drop 1).dropRight 1) p.2
            else alSet acc p.1 p.2)
          []
        let querys := params.foldl
          (fun acc p => if isParam p.1 then acc else alSet acc p.1 p.2)
          querys0
        let dataValues := mapping argsConfig dataArgsValues
        let uri : String := ⟨substAux
          (fun key =>
            match alLookup dataValues key with
            | some v => v.fmt
            | none =>
              match alLookup params ("\x7b" ++ key ++ "\x7d") with
              | some v => v.fmt
              | none => "")
          info.uri.data⟩
        let uri :=
          if querys ≠ [] then
            let enc := valuesEncode (querys.map fun p => (p.1, p.2.fmt))
            if sHas uri '?' then uri ++ "&" ++ enc else uri ++ "?" ++ enc
          else uri
        match alLookup options "[site]" with
        | some v =>
          if v ≠ GVal.vnil then
            let siteName2 :=
              match v with
              | GVal.vstr s => if s ≠ "" then s else siteName
              | _ => siteName
            siteUrlImpl w siteName2 uri options
          else uri
        | none => uri

/-! ### Basic lemmas about the map model -/

theorem alLookup_alSet {β : Type} (l : List (String × β)) (k : String)
    (v : β) : alLookup (alSet l k v) k = some v := by
  induction l with
  | nil => simp [alSet, alLookup]
  | cons p t ih =>
    by_cases h : p.1 = k
    · simp [alSet, alLookup, h]
    · simp [alSet, alLookup, h, ih]

theorem alLookup_alSet_ne {β : Type} (l : List (String × β)) (k k' : String)
    (v : β) (h : k ≠ k') : alLookup (alSet l k v) k' = alLookup l k' := by
  induction l with
  | nil => simp [alSet, alLookup, h]
  | cons p t ih =>
    by_cases hp : p.1 = k
    · simp [alSet, alLookup, hp, h]
    · simp [alSet, alLookup, hp, ih]

theorem alSet_fresh {β : Type} (l : List (String × β)) (k : String) (v : β)
    (h : alLookup l k = none) : alSet l k v = l ++ [(k, v)] := by
  induction l with
  | nil => simp [alSet]
  | cons p t ih =>
    by_cases hp : p.1 = k
    · simp [alLookup, hp] at h
    · simp [alLookup, hp] at h
      simp [alSet, hp, ih h]

/-! ### C7 — post-seal behaviour of the registration entry points -/

/-- C7 (counterexample): after the registry is sealed (`opened`), the claim
that every registration entry point leaves the module registry unchanged
fails for drivers: `RegisterDriver` carries no seal guard and still mutates
the driver table. -/
theorem c7_counterexample :
    registerDriver false { opened := true } "x" (some 5) =
      some { opened := true, drivers := [("x", 5)] } ∧
    ({ opened := true : ModuleSt }).drivers = [] := by
  constructor
  · rfl
  · rfl

/-- C7 (amended): after the registry is sealed, the router, filter, handler
and config registration entry points all leave the module state unchanged;
driver registration is the one entry point without the seal guard (see the
counterexample). -/
theorem c7_sealed_registry (ov : Bool) (m : ModuleSt)
    (h : m.opened = true) :
    (∀ name cfg, registerRouter ov m name cfg = m) ∧
    (∀ name f, registerFilter ov m name f = m) ∧
    (∀ name hd, registerHandler ov m name hd = m) ∧
    (∀ name c, registerConfig ov m name c = m) ∧
    (∀ cs, registerConfigs ov m cs = m) := by
  have hcfg : ∀ name c, registerConfig ov m name c = m := by
    intro name c; simp [registerConfig, h]
  refine ⟨?_, ?_, ?_, hcfg, ?_⟩
  · intro name cfg; simp [registerRouter, h]
  · intro name f; simp [registerFilter, h]
  · intro name hd; simp [registerHandler, h]
  · intro cs
    induction cs with
    | nil => rfl
    | cons p t ih =>
      simp only [registerConfigs, List.foldl_cons] at ih ⊢
      rw [hcfg p.1 p.2]; exact ih

/-- C7 (witness): a concrete sealed module ignores a router registration. -/
theorem c7_sealed_registry_witness :
    registerRouter false { opened := true } "a" {} =
      ({ opened := true } : ModuleSt) :=
  (c7_sealed_registry false { opened := true } rfl).1 "a" {}

/-! ### C10 — declarations with no overrides and no generic action -/

/-- C10: a route declaration whose override map is empty or absent and
whose generic action is nil expands to no route records at all, and
registering it leaves any site route table unchanged — even when its
plural `Actions` list is non-empty, although that list is exactly what the
execute stage enqueues for a matched route. -/
theorem c10_empty_declaration (rn : String) (cfg : RouterCfg)
    (h1 : cfg.routing = none ∨ cfg.routing = some [])
    (h2 : cfg.action = none) :
    expandRouter rn cfg = [] ∧
    (∀ ov tbl, applyRouter ov tbl rn cfg = tbl) ∧
    (∀ site : SiteH, ∀ acts : List Nat,
      cfg.actions = some acts → acts ≠ [] →
      executeQueue site cfg =
        site.executeFilters.map CStage.act ++ acts.map CStage.act) := by
  have he : expandRouter rn cfg = [] := by
    rcases h1 with h1 | h1 <;> simp [expandRouter, h1, h2]
  refine ⟨he, fun ov tbl => by simp [applyRouter, he, storeRouters], ?_⟩
  intro site acts ha hne
  simp [executeQueue, ha, hne, h2]

/-- C10 (witness): concrete declaration carrying only a non-empty action
list. -/
theorem c10_empty_declaration_witness :
    expandRouter "r" { actions := some [7] } = [] ∧
    executeQueue {} { actions := some [7] } = [CStage.act 7] := by
  have h := c10_empty_declaration "r" { actions := some [7] } (Or.inl rfl) rfl
  exact ⟨h.1, by simpa using h.2.2 {} [7] rfl (by decide)⟩

/-! ### C6 — bare-status payloads in the response encoder -/

/-- C6 (counterexample): the encoder entry point normalizes an unset status
code to 200 before dispatching, so a bare-status payload with the code
unset is written as `200 OK`, not as the standard not-found response the
claim states. -/
theorem c6_counterexample :
    bodyRun (fun _ => Except.error "")
        { code := 0, body := some (BodyV.status "") } =
      Resp.written 200 "OK" ∧
    bodyRun (fun _ => Except.error "")
        { code := 0, body := some (BodyV.status "") } ≠
      Resp.notFoundPage := by
  exact ⟨rfl, by decide⟩

/-- C6 (amended): for a bare-status payload the encoder first normalizes an
unset code to 200, then writes the status line with the code's standard
reason phrase or the supplied text; the not-found branch of the bare-status
writer is unreachable through the encoder entry point. -/
theorem c6_bare_status (marshal : GVal → Except String String) (c : Ctx)
    (t : String) (hb : c.body = some (BodyV.status t)) :
    (c.code ≤ 0 →
      bodyRun marshal c = Resp.written 200 (if t = "" then "OK" else t)) ∧
    (0 < c.code →
      bodyRun marshal c =
        Resp.written c.code (if t = "" then statusText c.code else t)) := by
  constructor <;> intro hc
  · have h0 : (if c.code ≤ 0 then (200 : Int) else c.code) = 200 := by
      simp [hc]
    simp only [bodyRun, hb, bodyStatusImpl, h0]
    norm_num [statusText]
  · have h0 : (if c.code ≤ 0 then (200 : Int) else c.code) = c.code := by
      omega
    have h1 : ¬ c.code ≤ 0 := by omega
    simp only [bodyRun, hb, bodyStatusImpl, h0]
    simp [h1]

/-- C6 (witness): a set code is echoed with its standard reason phrase. -/
theorem c6_bare_status_witness :
    bodyRun (fun _ => Except.error "")
        { code := 404, body := some (BodyV.status "") } =
      Resp.written 404 "Not Found" := by
  have h := c6_bare_status (fun _ => Except.error "")
    { code := 404, body := some (BodyV.status "") } "" rfl
  simpa [statusText] using h.2 (by norm_num)

/-! ### C4 / C5 — reverse URL builder on `user.profile`

The route table built for the registration `user.profile` (URI
`/users/\x7bid\x7d`) contains only method-suffixed names (`profile.*`, or
`profile.get` …); the exact lookup of `profile` misses, and the source's
fallback lookups try `profile.get.0` / `profile.post.0` / `profile.*.0`,
names the per-URI emission can never produce (its numeric suffixes start
at `.1`).  The reverse build for `user.profile` therefore returns the name
unchanged, while the fully suffixed name resolves and substitutes as the
spec describes. -/

/-- C4: at the claim's own input the reverse builder returns the route
name, not `/users/42` (the fallback keys cannot exist); with the stored
suffixed name `user.profile.*` the substitution and query-append behaviour
the claim describes does hold. -/
theorem c4_reverse_url_at_bug :
    (routeUrlImpl (fun _ _ => [])
        { sites := [("user",
            { routerInfos := buildRouterInfos (expandRouter "profile"
                { uri := "/users/{id}", action := some 1 }) })] }
        (some { siteName := "user" }) "user.profile"
        [("{id}", GVal.vint 42)] = "user.profile") ∧
    (routeUrlImpl (fun _ _ => [])
        { sites := [("user",
            { routerInfos := buildRouterInfos (expandRouter "profile"
                { uri := "/users/{id}", action := some 1 }) })] }
        (some { siteName := "user" }) "user.profile.*"
        [("{id}", GVal.vint 42)] = "/users/42") ∧
    (routeUrlImpl (fun _ _ => [])
        { sites := [("user",
            { routerInfos := buildRouterInfos (expandRouter "profile"
                { uri := "/users/{id}", action := some 1 }) })] }
        (some { siteName := "user" }) "user.profile.*"
        [("{id}", GVal.vint 42), ("tab", GVal.vstr "posts")] =
      "/users/42?tab=posts") := by
  refine ⟨by decide, by decide, by decide⟩

/-- C5: the reverse builder's method fallbacks look up
`<route>.get.0` / `<route>.post.0` / `<route>.*.0`, but a table holding
the get, post and wildcard variants of `profile` contains none of those
keys (no construction emits a `.0` suffix), so the fallback resolves
nothing and the build returns the dotted name unchanged. -/
theorem c5_fallback_dead :
    (alLookup (buildRouterInfos (expandRouter "profile"
        { uri := "/users/{id}", action := some 1,
          routing := some [("get", {}), ("post", {})] }))
      "profile.get").isSome = true ∧
    (alLookup (buildRouterInfos (expandRouter "profile"
        { uri := "/users/{id}", action := some 1,
          routing := some [("get", {}), ("post", {})] }))
      "profile.*").isSome = true ∧
    alLookup (buildRouterInfos (expandRouter "profile"
        { uri := "/users/{id}", action := some 1,
          routing := some [("get", {}), ("post", {})] }))
      "profile.get.0" = none ∧
    alLookup (buildRouterInfos (expandRouter "profile"
        { uri := "/users/{id}", action := some 1,
          routing := some [("get", {}), ("post", {})] }))
      "profile.post.0" = none ∧
    alLookup (buildRouterInfos (expandRouter "profile"
        { uri := "/users/{id}", action := some 1,
          routing := some [("get", {}), ("post", {})] }))
      "profile.*.0" = none ∧
    routeUrlImpl (fun _ _ => [])
        { sites := [("user",
            { routerInfos := buildRouterInfos (expandRouter "profile"
                { uri := "/users/{id}", action := some 1,
                  routing := some [("get", {}), ("post", {})] }) })] }
        (some { siteName := "user" }) "user.profile"
        [("{id}", GVal.vint 42)] = "user.profile" := by
  refine ⟨by decide, by decide, by decide, by decide, by decide, by decide⟩

/-! ### C2 — host resolution -/

theorem wild_none (tbl : GoSMap) :
    ∀ l : List String,
    (∀ i, 1 ≤ i → i < l.length →
      alLookup tbl ("*." ++ String.intercalate "." (l.drop i)) = none) →
    wildLookup tbl l = "" := by
  intro l
  induction l with
  | nil => intro _; rfl
  | cons x rest ih =>
    intro h
    by_cases hr : rest = []
    · simp [wildLookup, hr]
    · have hlen : 0 < rest.length := List.length_pos.mpr hr
      have h1 : alLookup tbl ("*." ++ String.intercalate "." rest) = none := by
        have := h 1 (le_refl 1) (by simp only [List.length_cons]; omega)
        simpa [List.drop_succ_cons] using this
      have ihres : wildLookup tbl rest = "" := by
        apply ih
        intro i h1i hilen
        have := h (i + 1) (by omega) (by simp only [List.length_cons]; omega)
        simpa [List.drop_succ_cons] using this
      simp [wildLookup, hr, h1, ihres]

theorem wild_first (tbl : GoSMap) :
    ∀ (l : List String) (j : Nat) (s : String), 1 ≤ j → j < l.length →
    (∀ i, 1 ≤ i → i < j →
      alLookup tbl ("*." ++ String.intercalate "." (l.drop i)) = none) →
    alLookup tbl ("*." ++ String.intercalate "." (l.drop j)) = some s →
    wildLookup tbl l = s := by
  intro l
  induction l with
  | nil =>
    intro j s h1 h2 _ _
    simp at h2
  | cons x rest ih =>
    intro j s hj1 hjlen hmiss hhit
    have hr : rest ≠ [] := by
      intro he
      rw [he] at hjlen
      simp at hjlen
      omega
    by_cases hj : j = 1
    · subst hj
      have hd : (x :: rest).drop 1 = rest := by simp
      rw [hd] at hhit
      simp [wildLookup, hr, hhit]
    · have h1 : alLookup tbl ("*." ++ String.intercalate "." rest) = none := by
        have := hmiss 1 (le_refl 1) (by omega)
        simpa [List.drop_succ_cons] using this
      have ihres : wildLookup tbl rest = s := by
        apply ih (j - 1) s (by omega)
          (by simp only [List.length_cons] at hjlen; omega)
        · intro i hi1 hij
          have := hmiss (i + 1) (by omega) (by omega)
          simpa [List.drop_succ_cons] using this
        · have hd : rest.drop (j - 1) = (x :: rest).drop j := by
            have hj' : j = (j - 1) + 1 := by omega
            rw [hj']
            simp
          rw [hd]
          exact hhit
      simp [wildLookup, hr, h1, ihres]

/-- C2: host resolution normalizes the request host, returns the site of
an exact entry when one exists, otherwise strips the leftmost label one at
a time returning the site of the first matching `*.` wildcard entry, and a
request whose host matches no entry (and whose dispatch name selects no
site) is served by the configured default site. -/
theorem c2_host_resolution (tbl : GoSMap) (host : String)
    (sites : List String) (dflt name : String) :
    (∀ s, normalizeHost host ≠ "" →
      alLookup tbl (normalizeHost host) = some s →
      resolveSiteByHost tbl host = s) ∧
    (∀ j s, alLookup tbl (normalizeHost host) = none →
      1 ≤ j → j < (goSplit (normalizeHost host) '.').length →
      (∀ i, 1 ≤ i → i < j →
        alLookup tbl ("*." ++ String.intercalate "."
          ((goSplit (normalizeHost host) '.').drop i)) = none) →
      alLookup tbl ("*." ++ String.intercalate "."
        ((goSplit (normalizeHost host) '.').drop j)) = some s →
      resolveSiteByHost tbl host = s) ∧
    (((splitPre name).1 = "" ∨ (splitPre name).1 = goDEFAULT ∨
        (splitPre name).1 ∉ sites) →
      alLookup tbl (normalizeHost host) = none →
      (∀ i, 1 ≤ i → i < (goSplit (normalizeHost host) '.').length →
        alLookup tbl ("*." ++ String.intercalate "."
          ((goSplit (normalizeHost host) '.').drop i)) = none) →
      serveSiteSelect sites dflt tbl name host = dflt) := by
  have hres0 : ∀ hne : normalizeHost host = "",
      resolveSiteByHost tbl host = "" := by
    intro hne
    simp [resolveSiteByHost, hne]
  refine ⟨?_, ?_, ?_⟩
  · intro s hne hlook
    simp [resolveSiteByHost, hne, hlook]
  · intro j s hmissE hj1 hjlen hmiss hhit
    by_cases hne : normalizeHost host = ""
    · rw [hne] at hjlen
      simp [goSplit, splitCharAux] at hjlen
      omega
    · simp only [resolveSiteByHost, if_neg hne, hmissE]
      exact wild_first tbl _ j s hj1 hjlen hmiss hhit
  · intro hname hmissE hmiss
    have hresolve : resolveSiteByHost tbl host = "" := by
      by_cases hne : normalizeHost host = ""
      · exact hres0 hne
      · simp only [resolveSiteByHost, if_neg hne, hmissE]
        exact wild_none tbl _ hmiss
    have hsel : ¬ ((splitPre name).1 ≠ "" ∧ (splitPre name).1 ≠ goDEFAULT ∧
        (splitPre name).1 ∈ sites) := by
      rcases hname with h | h | h <;> simp [h]
    simp [serveSiteSelect, hsel, hresolve]

/-- C2 (witness): exact match beats the wildcard, a grandchild host falls
back to `*.example.com`, and an unregistered host serves the default
site. -/
theorem c2_host_resolution_witness :
    resolveSiteByHost [("a.example.com", "s1"), ("*.example.com", "s2")]
        "a.example.com" = "s1" ∧
    resolveSiteByHost [("a.example.com", "s1"), ("*.example.com", "s2")]
        "b.a.example.com" = "s2" ∧
    serveSiteSelect ["default"] "dflt"
        [("a.example.com", "s1"), ("*.example.com", "s2")] "x"
        "other.org" = "dflt" := by
  refine ⟨?_, ?_, ?_⟩
  · exact (c2_host_resolution [("a.example.com", "s1"),
      ("*.example.com", "s2")] "a.example.com" ["default"] "dflt" "x").1
      "s1" (by decide) (by decide)
  · exact (c2_host_resolution [("a.example.com", "s1"),
      ("*.example.com", "s2")] "b.a.example.com" ["default"] "dflt" "x").2.1
      2 "s2" (by decide) (by decide) (by decide)
      (by
        intro i h1 h2
        have hi : i = 1 := by omega
        subst hi
        decide)
      (by decide)
  · exact (c2_host_resolution [("a.example.com", "s1"),
      ("*.example.com", "s2")] "other.org" ["default"] "dflt" "x").2.2
      (by right; left; decide) (by decide)
      (by
        intro i h1 h2
        have hlen : (goSplit (normalizeHost "other.org") '.').length = 2 := by
          decide
        have hi : i = 1 := by omega
        subst hi
        decide)

/-! ### C8 — CORS preflight short-circuit -/

theorem corsHeaders_method (c : Ctx) (o m h : String) :
    (corsHeaders c o m h).method = c.method := by
  unfold corsHeaders
  split <;> split <;> split <;> rfl

theorem corsHeaders_allowOrigin (c : Ctx) (o m h : String) (ho : o ≠ "") :
    alLookup (corsHeaders c o m h).headers "Access-Control-Allow-Origin" =
      some o := by
  have ho' : (o != "") = true := by simpa using ho
  unfold corsHeaders
  simp only [ho', if_true, Ctx.headerSet]
  split <;> split <;>
    simp [alLookup_alSet, alLookup_alSet_ne]

/-- C8: an `OPTIONS` request whose (non-empty) origin, requested method
and requested headers all pass the configured cross-origin checks is
answered directly by the CORS stage: the stage does not advance (the
request-level pipeline ends there), the payload is the 200 plain-text
response, and the outgoing headers carry `Access-Control-Allow-Origin`
set to the request's origin. -/
theorem c8_cors_preflight (site : SiteH) (c : Ctx) (env : Env)
    (mapping : MappingFn)
    (hallow : site.cross.allow = true)
    (horig : c.headerGet "Origin" ≠ "")
    (hop : originPassedB site.cross (c.headerGet "Origin") = true)
    (hmp : methodPassedB site.cross
      (c.headerGet "Access-Control-Request-Method") = true)
    (hhp : headerPassedB site.cross
      (c.headerGet "Access-Control-Request-Headers") = true)
    (hm : c.method = "OPTIONS") :
    (crossingImpl site c).2 = false ∧
    (crossingImpl site c).1.body =
      some (BodyV.text "cross domain access allowed.") ∧
    (crossingImpl site c).1.code = 200 ∧
    alLookup (crossingImpl site c).1.headers "Access-Control-Allow-Origin" =
      some (c.headerGet "Origin") ∧
    siteRequest env site mapping c = (crossingImpl site c).1 := by
  have key : crossingImpl site c =
      ((corsHeaders { c with trace := c.trace ++ [Ev.stg StageT.crossing] }
          (c.headerGet "Origin")
          (c.headerGet "Access-Control-Request-Method")
          (c.headerGet "Access-Control-Request-Headers")).setText
        "cross domain access allowed." 200, false) := by
    have hop1 : originPassedB site.cross
        (Ctx.headerGet { c with trace := c.trace ++ [Ev.stg StageT.crossing] }
          "Origin") = true := hop
    have hmp1 : methodPassedB site.cross
        (Ctx.headerGet { c with trace := c.trace ++ [Ev.stg StageT.crossing] }
          "Access-Control-Request-Method") = true := hmp
    have hhp1 : headerPassedB site.cross
        (Ctx.headerGet { c with trace := c.trace ++ [Ev.stg StageT.crossing] }
          "Access-Control-Request-Headers") = true := hhp
    unfold crossingImpl
    simp only [hallow, if_true, hop1, hmp1, hhp1, Bool.and_self,
      corsHeaders_method]
    simp [hm]
    rfl
  rw [key]
  refine ⟨rfl, rfl, rfl, ?_, ?_⟩
  · exact corsHeaders_allowOrigin _ _ _ _ horig
  · show runRQ env site mapping _ c = _
    simp only [runRQ, reqStep]
    rw [key]
    simp

/-- C8 (witness): the spec's example — origin `https://x.test` against
allowed origins `["https://x.test"]`, `OPTIONS` with requested method
`POST` allowed — yields 200 and echoes the origin. -/
theorem c8_cors_preflight_witness :
    (crossingImpl
      { cross := { allow := true, origins := ["https://x.test"],
                   methods := ["POST"] } }
      { method := "OPTIONS",
        reqHeaders := [("Origin", "https://x.test"),
          ("Access-Control-Request-Method", "POST")] }).1.code = 200 ∧
    alLookup (crossingImpl
      { cross := { allow := true, origins := ["https://x.test"],
                   methods := ["POST"] } }
      { method := "OPTIONS",
        reqHeaders := [("Origin", "https://x.test"),
          ("Access-Control-Request-Method", "POST")] }).1.headers
      "Access-Control-Allow-Origin" = some "https://x.test" := by
  have h := c8_cors_preflight
    { cross := { allow := true, origins := ["https://x.test"],
                 methods := ["POST"] } }
    { method := "OPTIONS",
      reqHeaders := [("Origin", "https://x.test"),
        ("Access-Control-Request-Method", "POST")] }
    (fun _ x => (x, true)) (fun _ _ => (none, []))
    rfl (by decide) (by decide) (by decide) (by decide) rfl
  exact ⟨h.2.2.1, h.2.2.2.1⟩

/-! ### C3 — the four terminal chains -/

theorem outcome_code_pos (o : Outcome) : 0 < o.code := by
  cases o <;> decide

theorem setText_body (x : Ctx) (s : String) (k : Int) :
    (x.setText s k).body = some (BodyV.text s) := rfl

theorem setText_code (x : Ctx) (s : String) (k : Int) (h : 0 < k) :
    (x.setText s k).code = k := by
  simp [Ctx.setText, h]

theorem runCQ_acts_default (env : Env) (hadv : ∀ n x, (env n x).2 = true)
    (o : Outcome) : ∀ (ns : List Nat) (c : Ctx),
    ∃ x : Ctx, runCQ env (ns.map CStage.act ++ [CStage.cdefault o]) c =
      x.setText o.msg o.code := by
  intro ns
  induction ns with
  | nil => intro c; exact ⟨c, rfl⟩
  | cons n t ih =>
    intro c
    obtain ⟨x, hx⟩ := ih ((env n { c with trace := c.trace ++ [Ev.act n] }).1)
    refine ⟨x, ?_⟩
    simpa [runCQ, hadv] using hx

/-- C3: invoked on a context with the status code unset, each of the four
terminal chains sets its default status code (404/500/400/401), builds the
queue as the optional route-specific override followed by the
site-registered handlers in order followed by the built-in default, and —
when every user handler advances — the run always ends with the built-in
plain-text response (message and status of the chain's default). -/
theorem c3_terminal_chains (o : Outcome) (site : SiteH) (env : Env) (c : Ctx)
    (hcode : c.code ≤ 0)
    (hadv : ∀ n x, (env n x).2 = true) :
    (chainEnter o c).code = o.code ∧
    chainQueue o c.config site =
      ((match overrideOf c.config o with
        | some n => [n]
        | none => []) ++ handlersOf site o).map CStage.act ++
      [CStage.cdefault o] ∧
    (chainRun env o site c).body = some (BodyV.text o.msg) ∧
    (chainRun env o site c).code = o.code := by
  have hq : chainQueue o c.config site =
      ((match overrideOf c.config o with
        | some n => [n]
        | none => []) ++ handlersOf site o).map CStage.act ++
      [CStage.cdefault o] := by
    cases hov : overrideOf c.config o <;> simp [chainQueue, hov]
  obtain ⟨x, hx⟩ := runCQ_acts_default env hadv o
    ((match overrideOf c.config o with
      | some n => [n]
      | none => []) ++ handlersOf site o) (chainEnter o c)
  have hrun : chainRun env o site c = x.setText o.msg o.code := by
    rw [chainRun, hq]
    exact hx
  refine ⟨by simp [chainEnter, hcode], hq, ?_, ?_⟩
  · rw [hrun]; exact setText_body x o.msg o.code
  · rw [hrun]; exact setText_code x o.msg o.code (outcome_code_pos o)

/-- C3 (witness): the bad-request chain on an unset code, one override and
one site handler, all advancing. -/
theorem c3_terminal_chains_witness :
    (chainEnter Outcome.failed
      { config := { failed := some 9 }, code := 0 }).code = 400 ∧
    chainQueue Outcome.failed
      ({ config := { failed := some 9 }, code := 0 } : Ctx).config
      { failedHandlers := [4] } =
      [CStage.act 9, CStage.act 4, CStage.cdefault Outcome.failed] ∧
    (chainRun (fun _ x => (x, true)) Outcome.failed { failedHandlers := [4] }
      { config := { failed := some 9 }, code := 0 }).body =
      some (BodyV.text "Bad Request") := by
  have h := c3_terminal_chains Outcome.failed { failedHandlers := [4] }
    (fun _ x => (x, true)) { config := { failed := some 9 }, code := 0 }
    (by decide) (fun _ _ => rfl)
  exact ⟨h.1, h.2.1, h.2.2.1⟩

/-! ### C9 — argument-coercion failure enters the bad-request chain -/

theorem corsHeaders_pres (c : Ctx) (o m h : String) :
    (corsHeaders c o m h).config = c.config ∧
    (corsHeaders c o m h).value = c.value ∧
    (corsHeaders c o m h).trace = c.trace := by
  unfold corsHeaders
  split <;> split <;> split <;> exact ⟨rfl, rfl, rfl⟩

theorem crossing_config (site : SiteH) (c : Ctx) :
    ((crossingImpl site c).1).config = c.config := by
  simp only [crossingImpl]
  split
  · split
    · split
      · exact (corsHeaders_pres _ _ _ _).1
      · exact (corsHeaders_pres _ _ _ _).1
    · rfl
  · rfl

theorem crossing_value (site : SiteH) (c : Ctx) :
    ((crossingImpl site c).1).value = c.value := by
  simp only [crossingImpl]
  split
  · split
    · split
      · exact (corsHeaders_pres _ _ _ _).2.1
      · exact (corsHeaders_pres _ _ _ _).2.1
    · rfl
  · rfl

theorem crossing_trace (site : SiteH) (c : Ctx) :
    ((crossingImpl site c).1).trace = c.trace ++ [Ev.stg StageT.crossing] := by
  simp only [crossingImpl]
  split
  · split
    · split
      · exact (corsHeaders_pres _ _ _ _).2.2
      · exact (corsHeaders_pres _ _ _ _).2.2
    · rfl
  · rfl

theorem parsing_adv (c : Ctx) : (parsingImpl c).2 = true := rfl

theorem parsing_config (c : Ctx) : ((parsingImpl c).1).config = c.config := by
  simp only [parsingImpl]
  split_ifs <;> rfl

theorem parsing_trace (c : Ctx) :
    ((parsingImpl c).1).trace = c.trace ++ [Ev.stg StageT.parsing] := by
  simp only [parsingImpl]
  split_ifs <;> rfl

theorem authorizing_adv_eq (env : Env) (site : SiteH) (c : Ctx)
    (h : (authorizingImpl env site c).2 = true) :
    authorizingImpl env site c =
      ({ c with trace := c.trace ++ [Ev.stg StageT.authorizing] }, true) := by
  by_cases h1 : (c.config.sign && !c.signed) = true
  · simp [authorizingImpl, h1] at h
  · by_cases h2 : (c.config.auth && !c.authed) = true
    · simp [authorizingImpl, h1, h2] at h
    · simp [authorizingImpl, h1, h2]

theorem arguing_fail (mapping : MappingFn) (env : Env) (site : SiteH)
    (c : Ctx) (av : Vars) (res : ResV) (out : GoMap)
    (hargs : c.config.args = some av)
    (hmap : mapping av c.value = (some res, out))
    (hfail : res.fail = true) :
    arguingImpl mapping env site c =
      (chainRun env .failed site
        { c with trace := c.trace ++ [Ev.stg StageT.arguing],
                 result := some res }, false) := by
  unfold arguingImpl
  simp [hargs, hmap, hfail]

theorem runCQ_trace (env : Env)
    (htr : ∀ n x, ((env n x).1).trace = x.trace) :
    ∀ (q : List CStage) (c : Ctx),
    ∃ es : List Ev, (runCQ env q c).trace = c.trace ++ es ∧
      ∀ e ∈ es, ∃ n, e = Ev.act n ∧ CStage.act n ∈ q := by
  intro q
  induction q with
  | nil => intro c; exact ⟨[], by simp [runCQ], by simp⟩
  | cons s rest ih =>
    intro c
    cases s with
    | act n =>
      by_cases hr : (env n { c with trace := c.trace ++ [Ev.act n] }).2 = true
      · obtain ⟨es, h1, h2⟩ :=
          ih ((env n { c with trace := c.trace ++ [Ev.act n] }).1)
        refine ⟨Ev.act n :: es, ?_, ?_⟩
        · rw [htr] at h1
          simp only [runCQ, hr, if_true]
          simpa using h1
        · intro e he
          rcases List.mem_cons.mp he with he | he
          · exact ⟨n, he, by simp⟩
          · obtain ⟨m, hm1, hm2⟩ := h2 e he
            exact ⟨m, hm1, by simp [hm2]⟩
      · refine ⟨[Ev.act n], ?_, ?_⟩
        · simp [runCQ, hr, htr]
        · intro e he
          simp at he
          exact ⟨n, he, by simp⟩
    | cdefault o =>
      refine ⟨[], by simp [runCQ, Ctx.setText], by simp⟩

theorem chainRun_trace (env : Env)
    (htr : ∀ n x, ((env n x).1).trace = x.trace) (o : Outcome)
    (site : SiteH) (c : Ctx) :
    ∃ es : List Ev, (chainRun env o site c).trace =
      c.trace ++ [Ev.chain o c.result] ++ es ∧
      ∀ e ∈ es, ∃ n, e = Ev.act n ∧
        (overrideOf c.config o = some n ∨ n ∈ handlersOf site o) := by
  obtain ⟨es, h1, h2⟩ :=
    runCQ_trace env htr (chainQueue o c.config site) (chainEnter o c)
  refine ⟨es, ?_, ?_⟩
  · rw [chainRun] at *
    simpa [chainEnter] using h1
  · intro e he
    obtain ⟨n, he1, hq⟩ := h2 e he
    refine ⟨n, he1, ?_⟩
    rcases hov : overrideOf c.config o with _ | m <;>
      simp [chainQueue, hov] at hq <;> tauto

/-- C9: when the route has an argument schema and the coercion of the
supplied values fails, the request pipeline (its earlier stages advancing)
enters the bad-request (failed) terminal chain with the validation result
attached, the execute stage never runs, and the only user callbacks that
run afterwards are the failed chain's own handlers — in particular the
route's configured action sequence is never executed. -/
theorem c9_arg_failure (env : Env) (site : SiteH) (mapping : MappingFn)
    (c0 : Ctx) (av : Vars) (res : ResV) (out : GoMap)
    (htrace0 : c0.trace = [])
    (htr : ∀ n x, ((env n x).1).trace = x.trace)
    (hargs : c0.config.args = some av)
    (hfail : res.fail = true)
    (hcr : (crossingImpl site c0).2 = true)
    (hau : (authorizingImpl env site
      (parsingImpl (crossingImpl site c0).1).1).2 = true)
    (hmap : mapping av
      ((authorizingImpl env site
        (parsingImpl (crossingImpl site c0).1).1).1).value =
      (some res, out)) :
    Ev.chain Outcome.failed (some res) ∈
      (siteRequest env site mapping c0).trace ∧
    Ev.stg StageT.execute ∉ (siteRequest env site mapping c0).trace ∧
    (∀ a : Nat, Ev.act a ∈ (siteRequest env site mapping c0).trace →
      c0.config.failed = some a ∨ a ∈ site.failedHandlers) := by
  have hc1 := crossing_config site c0
  have hc3 := authorizing_adv_eq env site
    (parsingImpl (crossingImpl site c0).1).1 hau
  have hc3c : ((authorizingImpl env site
      (parsingImpl (crossingImpl site c0).1).1).1).config = c0.config := by
    rw [hc3]
    simpa [parsing_config] using hc1
  have hc3t : ((authorizingImpl env site
      (parsingImpl (crossingImpl site c0).1).1).1).trace =
      [Ev.stg StageT.crossing, Ev.stg StageT.parsing,
       Ev.stg StageT.authorizing] := by
    rw [hc3]
    simp [parsing_trace, crossing_trace, htrace0]
  have hrun : siteRequest env site mapping c0 =
      chainRun env .failed site
        { (authorizingImpl env site
            (parsingImpl (crossingImpl site c0).1).1).1 with
          trace := [Ev.stg StageT.crossing, Ev.stg StageT.parsing,
            Ev.stg StageT.authorizing, Ev.stg StageT.arguing],
          result := some res } := by
    simp only [siteRequest, runRQ, reqStep, hcr, if_true, parsing_adv]
    rw [hc3]
    simp only [if_true]
    rw [arguing_fail mapping env site _ av res out
      (by simp [parsing_config, crossing_config, hargs])
      (by have hm2 := hmap; rw [hc3] at hm2; simpa using hm2) hfail]
    simp [hc3, hc3t, parsing_trace, crossing_trace, htrace0]
  obtain ⟨es, ht, hes⟩ := chainRun_trace env htr .failed site
    { (authorizingImpl env site
        (parsingImpl (crossingImpl site c0).1).1).1 with
      trace := [Ev.stg StageT.crossing, Ev.stg StageT.parsing,
        Ev.stg StageT.authorizing, Ev.stg StageT.arguing],
      result := some res }
  have hC : ({ (authorizingImpl env site
      (parsingImpl (crossingImpl site c0).1).1).1 with
      trace := [Ev.stg StageT.crossing, Ev.stg StageT.parsing,
        Ev.stg StageT.authorizing, Ev.stg StageT.arguing],
      result := some res } : Ctx).config = c0.config := hc3c
  rw [hrun, ht]
  refine ⟨by simp, ?_, ?_⟩
  · intro hmem
    simp at hmem
    obtain ⟨n, hn, _⟩ := hes _ hmem
    exact absurd hn (by simp)
  · intro a hmem
    simp at hmem
    obtain ⟨n, hn1, hn2⟩ := hes _ hmem
    injection hn1 with hEq
    subst hEq
    rcases hn2 with h | h
    · left
      rw [hC] at h
      simpa [overrideOf] using h
    · right
      simpa [handlersOf] using h

/-- C9 (witness): a route with an argument schema whose coercion fails —
the run enters the failed chain with the result attached and the execute
stage never appears in the trace. -/
theorem c9_arg_failure_witness :
    Ev.chain Outcome.failed (some { fail := true, tag := "required" }) ∈
      (siteRequest (fun _ x => (x, true)) {}
        (fun _ _ => (some { fail := true, tag := "required" }, []))
        { config := { args := some [("id", 1)] } }).trace ∧
    Ev.stg StageT.execute ∉
      (siteRequest (fun _ x => (x, true)) {}
        (fun _ _ => (some { fail := true, tag := "required" }, []))
        { config := { args := some [("id", 1)] } }).trace := by
  have h := c9_arg_failure (fun _ x => (x, true)) {}
    (fun _ _ => (some { fail := true, tag := "required" }, []))
    { config := { args := some [("id", 1)] } } [("id", 1)]
    { fail := true, tag := "required" } [] rfl (fun _ _ => rfl) rfl rfl
    (by decide) (by decide) rfl
  exact ⟨h.1, h.2.1⟩

/-! ### C1 — counting the route records of one declaration -/

theorem alLookup_append {β : Type} (l1 l2 : List (String × β)) (k : String) :
    alLookup (l1 ++ l2) k =
      match alLookup l1 k with
      | some v => some v
      | none => alLookup l2 k := by
  induction l1 with
  | nil => simp [alLookup]
  | cons p t ih =>
    by_cases hp : p.1 = k
    · simp [alLookup, hp]
    · simp [alLookup, hp, ih]

theorem alLookup_none {β : Type} (l : List (String × β)) (k : String)
    (h : k ∉ l.map Prod.fst) : alLookup l k = none := by
  induction l with
  | nil => rfl
  | cons p t ih =>
    simp only [List.map_cons, List.mem_cons, not_or] at h
    have hne : ¬ p.1 = k := fun hh => h.1 hh.symm
    simp [alLookup, hne, ih h.2]

theorem foldl_alSet_nodup {α β : Type} (key : α → String) (val : α → β) :
    ∀ (l : List α) (acc : List (String × β)),
    (∀ a ∈ l, alLookup acc (key a) = none) →
    (l.map key).Nodup →
    l.foldl (fun t a => alSet t (key a) (val a)) acc =
      acc ++ l.map (fun a => (key a, val a)) := by
  intro l
  induction l with
  | nil => intro acc _ _; simp
  | cons a t ih =>
    intro acc hfresh hnd
    simp only [List.map_cons, List.nodup_cons] at hnd
    simp only [List.foldl_cons]
    rw [alSet_fresh acc (key a) (val a) (hfresh a (by simp))]
    rw [ih (acc ++ [(key a, val a)]) ?_ hnd.2]
    · simp
    · intro b hb
      rw [alLookup_append, hfresh b (by simp [hb])]
      have hne : ¬ key a = key b := by
        intro he
        apply hnd.1
        rw [he]
        exact List.mem_map_of_mem key hb
      simp [alLookup, hne]

theorem strAppend_cancel_left (p a b : String) (h : p ++ a = p ++ b) :
    a = b := by
  apply String.ext
  have hd := congrArg String.data h
  rw [String.data_append, String.data_append] at hd
  exact List.append_cancel_left hd

theorem dotData : ("." : String).data = ['.'] := rfl

theorem digitChar_toNat_fin : ∀ m : Fin 10, (Nat.digitChar m.1).toNat = 48 + m.1 := by
  decide

theorem digitChar_isDigit_fin : ∀ m : Fin 10, (Nat.digitChar m.1).isDigit = true := by
  decide

/-- Numeric value of a most-significant-first digit list (left inverse of
the `strconv.Itoa` digits). -/
def chValD (l : List Char) : Nat :=
  l.foldl (fun a c => 10 * a + (c.toNat - 48)) 0

theorem chValD_append (l : List Char) (c : Char) :
    chValD (l ++ [c]) = 10 * chValD l + (c.toNat - 48) := by
  simp [chValD, List.foldl_append]

theorem itoaCore_val : ∀ (fuel n : Nat), n < 10 ^ fuel →
    chValD (itoaCore fuel n) = n := by
  intro fuel
  induction fuel with
  | zero =>
    intro n h
    have h0 : n = 0 := by simpa using h
    simp [h0, itoaCore, chValD]
  | succ f ih =>
    intro n h
    by_cases h10 : n < 10
    · have hd : (Nat.digitChar n).toNat = 48 + n :=
        digitChar_toNat_fin ⟨n, h10⟩
      simp [itoaCore, h10, chValD, hd]
    · have hdiv : n / 10 < 10 ^ f := by
        rw [Nat.div_lt_iff_lt_mul (by norm_num)]
        calc n < 10 ^ (f + 1) := h
        _ = 10 ^ f * 10 := by ring
      have hmod : n % 10 < 10 := Nat.mod_lt _ (by norm_num)
      have hd : (Nat.digitChar (n % 10)).toNat = 48 + n % 10 :=
        digitChar_toNat_fin ⟨n % 10, hmod⟩
      simp only [itoaCore, if_neg h10]
      rw [chValD_append, ih _ hdiv, hd]
      omega

theorem itoa_inj {a b : Nat} (h : itoa a = itoa b) : a = b := by
  have hpow : ∀ n : Nat, n < 10 ^ (n + 1) := fun n =>
    lt_of_lt_of_le (Nat.lt_pow_self (by norm_num) n)
      (Nat.pow_le_pow_right (by norm_num) (by omega))
  have hd : itoaCore (a + 1) a = itoaCore (b + 1) b := congrArg String.data h
  have hva := itoaCore_val (a + 1) a (hpow a)
  have hvb := itoaCore_val (b + 1) b (hpow b)
  rw [hd, hvb] at hva
  omega

theorem itoaCore_digits : ∀ (fuel n : Nat) (c : Char),
    c ∈ itoaCore fuel n → c.isDigit = true := by
  intro fuel
  induction fuel with
  | zero => intro n c hc; simp [itoaCore] at hc
  | succ f ih =>
    intro n c hc
    by_cases h10 : n < 10
    · simp [itoaCore, h10] at hc
      subst hc
      exact digitChar_isDigit_fin ⟨n, h10⟩
    · simp [itoaCore, h10] at hc
      rcases hc with hc | hc
      · exact ih _ _ hc
      · subst hc
        exact digitChar_isDigit_fin ⟨n % 10, Nat.mod_lt _ (by norm_num)⟩

theorem itoa_ne_nil (n : Nat) : (itoa n).data ≠ [] := by
  show itoaCore (n + 1) n ≠ []
  by_cases h10 : n < 10 <;> simp [itoaCore, h10]

theorem itoa_no_dot (n : Nat) : '.' ∉ (itoa n).data := by
  intro h
  have := itoaCore_digits (n + 1) n '.' h
  exact absurd this (by decide)

/-- Shape of a per-URI name suffix: empty, or a dot followed by a
non-empty dot-free digit string. -/
def SufOk (u : List Char) : Prop :=
  u = [] ∨ ∃ d, u = '.' :: d ∧ '.' ∉ d ∧ d ≠ []

theorem dotfree_append_inj :
    ∀ (t1 t2 u1 u2 : List Char), '.' ∉ t1 → '.' ∉ t2 →
    SufOk u1 → SufOk u2 →
    t1 ++ u1 = t2 ++ u2 → t1 = t2 ∧ u1 = u2 := by
  intro t1
  induction t1 with
  | nil =>
    intro t2 u1 u2 h1 h2 s1 s2 he
    cases t2 with
    | nil => exact ⟨rfl, by simpa using he⟩
    | cons c t2' =>
      simp only [List.nil_append, List.cons_append] at he
      rcases s1 with rfl | ⟨d, rfl, _, _⟩
      · exact absurd he (by simp)
      · have hc : '.' = c ∧ d = t2' ++ u2 := by simpa using he
        exact absurd (hc.1 ▸ List.mem_cons_self '.' t2') h2
  | cons c1 t1' ih =>
    intro t2 u1 u2 h1 h2 s1 s2 he
    cases t2 with
    | nil =>
      simp only [List.cons_append, List.nil_append] at he
      rcases s2 with rfl | ⟨d, rfl, _, _⟩
      · exact absurd he (by simp)
      · have hc : c1 = '.' ∧ t1' ++ u1 = d := by simpa using he
        exact absurd (hc.1 ▸ List.mem_cons_self c1 t1') h1
    | cons c2 t2' =>
      simp only [List.cons_append] at he
      injection he with hh ht
      subst hh
      have h1' : '.' ∉ t1' := fun hm => h1 (List.mem_cons_of_mem _ hm)
      have h2' : '.' ∉ t2' := fun hm => h2 (List.mem_cons_of_mem _ hm)
      obtain ⟨ha, hb⟩ := ih t2' u1 u2 h1' h2' s1 s2 ht
      exact ⟨by rw [ha], hb⟩

theorem nameOf_data (rn t : String) (i : Nat) :
    (nameOf (rn ++ "." ++ t) i).data =
      rn.data ++ '.' :: (t.data ++
        (if i = 0 then [] else '.' :: (itoa i).data)) := by
  by_cases hi : i = 0 <;>
    simp [nameOf, hi, String.data_append, dotData]

theorem nameOf_suffix_ok (i : Nat) :
    SufOk (if i = 0 then [] else '.' :: (itoa i).data) := by
  by_cases hi : i = 0
  · left; simp [hi]
  · right
    exact ⟨(itoa i).data, by simp [hi], itoa_no_dot i, itoa_ne_nil i⟩

theorem nameOf_inj (rn t1 t2 : String) (i j : Nat)
    (h1 : '.' ∉ t1.data) (h2 : '.' ∉ t2.data)
    (he : nameOf (rn ++ "." ++ t1) i = nameOf (rn ++ "." ++ t2) j) :
    t1 = t2 ∧ i = j := by
  have hd := congrArg String.data he
  rw [nameOf_data, nameOf_data] at hd
  have hd2 := List.append_cancel_left hd
  injection hd2 with _ hd3
  obtain ⟨ht, hu⟩ := dotfree_append_inj t1.data t2.data _ _ h1 h2
    (nameOf_suffix_ok i) (nameOf_suffix_ok j) hd3
  refine ⟨String.ext ht, ?_⟩
  by_cases hi : i = 0
  · by_cases hj : j = 0
    · omega
    · rw [if_pos hi, if_neg hj] at hu
      exact absurd hu (by simp)
  · by_cases hj : j = 0
    · rw [if_neg hi, if_pos hj] at hu
      exact absurd hu (by simp)
    · rw [if_neg hi, if_neg hj] at hu
      injection hu with _ hu2
      exact itoa_inj (String.ext hu2)

theorem star_key_eq (rn : String) : rn ++ ".*" = rn ++ "." ++ "*" := by
  apply String.ext
  simp [String.data_append]

theorem expandRouter_eq (rn : String) (cfg : RouterCfg)
    (hnd : ((cfg.routing.getD []).map Prod.fst).Nodup)
    (hstar : "*" ∉ (cfg.routing.getD []).map Prod.fst) :
    expandRouter rn cfg =
      (cfg.routing.getD []).map
        (fun p => (rn ++ "." ++ p.1,
          mkRealConfig { cfg with uris := some (normUris cfg) } p.1 p.2)) ++
      (match cfg.action with
       | some _ => [(rn ++ ".*",
           { cfg with uris := some (normUris cfg), routing := none })]
       | none => []) := by
  cases hr : cfg.routing with
  | none =>
    cases ha : cfg.action with
    | none => simp [expandRouter, hr, ha]
    | some a => simp [expandRouter, hr, ha, alSet]
  | some rl =>
    rw [hr] at hnd hstar
    simp only [Option.getD_some] at hnd hstar
    have hinj : Function.Injective (fun m : String => rn ++ "." ++ m) := by
      intro a b h
      exact strAppend_cancel_left (rn ++ ".") a b h
    have hmapn : (rl.map (fun p : String × MethodCfg =>
        rn ++ "." ++ p.1)).Nodup := by
      have he : rl.map (fun p : String × MethodCfg => rn ++ "." ++ p.1) =
          (rl.map Prod.fst).map (fun m => rn ++ "." ++ m) := by
        rw [List.map_map]
        rfl
      rw [he]
      exact hnd.map hinj
    have hfold := foldl_alSet_nodup
      (fun p : String × MethodCfg => rn ++ "." ++ p.1)
      (fun p => mkRealConfig { cfg with uris := some (normUris cfg) } p.1 p.2)
      rl [] (fun a _ => rfl) hmapn
    have hstarkey : (rn ++ ".*") ∉
        rl.map (fun p : String × MethodCfg => rn ++ "." ++ p.1) := by
      intro hm
      rw [List.mem_map] at hm
      obtain ⟨p, hp, he⟩ := hm
      have hps : p.1 = "*" := by
        have he2 : rn ++ "." ++ p.1 = rn ++ "." ++ "*" := by
          rw [he, star_key_eq]
        exact strAppend_cancel_left (rn ++ ".") _ _ he2
      exact hstar (hps ▸ List.mem_map_of_mem Prod.fst hp)
    simp only [] at hfold
    cases ha : cfg.action with
    | none =>
      simp only [expandRouter, hr, ha]
      rw [hr, ha] at hfold
      rw [hfold]
      simp
    | some a =>
      simp only [expandRouter, hr, ha]
      rw [hr, ha] at hfold
      rw [hfold]
      simp only [List.nil_append]
      rw [alSet_fresh _ _ _ ?_]
      · rfl
      · apply alLookup_none
        intro hm
        rw [List.map_map] at hm
        exact hstarkey (by simpa using hm)

theorem buildFold_eq :
    ∀ (recs : List (String × RouterCfg)) (acc : List (String × Info)),
    (∀ p ∈ recs, ∀ i ∈ List.range (p.2.uris.getD []).length,
      alLookup acc (nameOf p.1 i) = none) →
    (recs.flatMap (fun p =>
      (List.range (p.2.uris.getD []).length).map (nameOf p.1))).Nodup →
    recs.foldl
      (fun acc p =>
        ((p.2.uris.getD []).enum).foldl
          (fun acc2 iu =>
            alSet acc2 (nameOf p.1 iu.1)
              { method := p.2.method, uri := iu.2, router := p.1,
                args := p.2.args })
          acc)
      acc =
    acc ++ recs.flatMap (fun p =>
      ((p.2.uris.getD []).enum).map (fun iu =>
        (nameOf p.1 iu.1,
          ({ method := p.2.method, uri := iu.2, router := p.1,
             args := p.2.args } : Info)))) := by
  intro recs
  induction recs with
  | nil => intro acc _ _; simp
  | cons p rest ih =>
    intro acc hfresh hnd
    rw [List.flatMap_cons] at hnd
    obtain ⟨nd1, nd2, disj⟩ := List.nodup_append.mp hnd
    have hmemidx : ∀ iu ∈ (p.2.uris.getD []).enum,
        iu.1 ∈ List.range (p.2.uris.getD []).length := by
      intro iu hiu
      rw [← List.enum_map_fst]
      exact List.mem_map_of_mem Prod.fst hiu
    have hinnerNames : ((p.2.uris.getD []).enum).map
        (fun iu : Nat × String => nameOf p.1 iu.1) =
        (List.range (p.2.uris.getD []).length).map (nameOf p.1) := by
      rw [← List.enum_map_fst (p.2.uris.getD []), List.map_map]
      rfl
    have hinner := foldl_alSet_nodup
      (fun iu : Nat × String => nameOf p.1 iu.1)
      (fun iu => ({ method := p.2.method, uri := iu.2, router := p.1,
                    args := p.2.args } : Info))
      ((p.2.uris.getD []).enum) acc
      (fun iu hiu => hfresh p (by simp) iu.1 (hmemidx iu hiu))
      (by rw [hinnerNames]; exact nd1)
    simp only [List.foldl_cons]
    rw [hinner]
    rw [ih _ ?_ nd2]
    · simp [List.append_assoc]
    · intro q hq i hi
      rw [alLookup_append, hfresh q (by simp [hq]) i hi]
      apply alLookup_none
      intro hm
      rw [List.map_map] at hm
      have hm2 : nameOf q.1 i ∈ ((p.2.uris.getD []).enum).map
          (fun iu : Nat × String => nameOf p.1 iu.1) := hm
      rw [hinnerNames] at hm2
      apply disj hm2
      rw [List.mem_flatMap]
      exact ⟨q, hq, List.mem_map_of_mem _ hi⟩

theorem buildRouterInfos_names (recs : List (String × RouterCfg))
    (hnd : (recs.flatMap (fun p =>
      (List.range (p.2.uris.getD []).length).map (nameOf p.1))).Nodup) :
    (buildRouterInfos recs).map Prod.fst =
      recs.flatMap (fun p =>
        (List.range (p.2.uris.getD []).length).map (nameOf p.1)) := by
  unfold buildRouterInfos
  rw [buildFold_eq recs [] (fun p _ i _ => rfl) hnd]
  rw [List.nil_append, List.map_flatMap]
  have hfun : (fun p : String × RouterCfg =>
      (((p.2.uris.getD []).enum).map (fun iu =>
        (nameOf p.1 iu.1,
          ({ method := p.2.method, uri := iu.2, router := p.1,
             args := p.2.args } : Info)))).map Prod.fst) =
      (fun p : String × RouterCfg =>
        (List.range (p.2.uris.getD []).length).map (nameOf p.1)) := by
    funext p
    rw [List.map_map, ← List.enum_map_fst (p.2.uris.getD []), List.map_map]
    rfl
  rw [hfun]

theorem flatMap_after_map {α β γ : Type} (f : α → β) (g : β → List γ) :
    ∀ l : List α, (l.map f).flatMap g = l.flatMap (fun x => g (f x)) := by
  intro l
  induction l with
  | nil => rfl
  | cons a t ih => simp only [List.map_cons, List.flatMap_cons, ih]

theorem expandRouter_flat_names (rn : String) (cfg : RouterCfg)
    (hnd : ((cfg.routing.getD []).map Prod.fst).Nodup)
    (hstar : "*" ∉ (cfg.routing.getD []).map Prod.fst) :
    (expandRouter rn cfg).flatMap (fun p =>
      (List.range (p.2.uris.getD []).length).map (nameOf p.1)) =
    ((cfg.routing.getD []).map Prod.fst ++
      (if cfg.action.isSome then ["*"] else [])).flatMap
      (fun t => (List.range (normUris cfg).length).map
        (nameOf (rn ++ "." ++ t))) := by
  rw [expandRouter_eq rn cfg hnd hstar]
  simp only [List.flatMap_append]
  congr 1
  · rw [flatMap_after_map, flatMap_after_map]
    rfl
  · cases ha : cfg.action with
    | none => simp
    | some a =>
      simp only [Option.isSome_some, if_pos, List.flatMap_cons,
        List.flatMap_nil, List.append_nil]
      rw [star_key_eq rn]
      rfl

theorem nodup_flat_names (rn : String) (M : Nat) :
    ∀ ts : List String, (∀ t ∈ ts, '.' ∉ t.data) → ts.Nodup →
    (ts.flatMap (fun t =>
      (List.range M).map (nameOf (rn ++ "." ++ t)))).Nodup := by
  intro ts
  induction ts with
  | nil => intro _ _; simp
  | cons t rest ih =>
    intro hdot hnd
    rw [List.flatMap_cons, List.nodup_append]
    refine ⟨?_, ?_, ?_⟩
    · refine List.Nodup.map ?_ (List.nodup_range M)
      intro i j he
      exact (nameOf_inj rn t t i j (hdot t (by simp))
        (hdot t (by simp)) he).2
    · exact ih (fun x hx => hdot x (List.mem_cons_of_mem _ hx))
        (List.nodup_cons.mp hnd).2
    · intro a ha hb
      rw [List.mem_map] at ha
      obtain ⟨i, _, hai⟩ := ha
      rw [List.mem_flatMap] at hb
      obtain ⟨t2, ht2, hbm⟩ := hb
      rw [List.mem_map] at hbm
      obtain ⟨j, _, haj⟩ := hbm
      have he : nameOf (rn ++ "." ++ t) i = nameOf (rn ++ "." ++ t2) j := by
        rw [hai, haj]
      have hteq := (nameOf_inj rn t t2 i j (hdot t (by simp))
        (hdot t2 (List.mem_cons_of_mem _ ht2)) he).1
      exact (List.nodup_cons.mp hnd).1 (by rw [hteq]; exact ht2)

theorem flat_names_length (rn : String) (M : Nat) :
    ∀ ts : List String,
    (ts.flatMap (fun t =>
      (List.range M).map (nameOf (rn ++ "." ++ t)))).length =
      ts.length * M := by
  intro ts
  induction ts with
  | nil => simp
  | cons t rest ih =>
    simp only [List.flatMap_cons, List.length_append, List.length_map,
      List.length_range, ih, List.length_cons]
    ring

/-- C1: amended count of route-record names. For a declaration whose
method-override names are pairwise distinct, dot-free and never the literal
`*`, route-table construction emits exactly `(N + 1) × M` distinct names
when a generic action is present alongside the N overrides (`N × M` with
overrides only, `M` with a generic action only, `0` with neither), where M
is the number of normalized URIs — not the `N × M`-or-`M` count of the
claim: the `<name>.*` record is emitted whenever `Action` is set, even with
overrides present. All emitted names are pairwise distinct. -/
theorem c1_route_expansion_count (rn : String) (cfg : RouterCfg)
    (hnd : ((cfg.routing.getD []).map Prod.fst).Nodup)
    (hstar : "*" ∉ (cfg.routing.getD []).map Prod.fst)
    (hdot : ∀ m ∈ (cfg.routing.getD []).map Prod.fst, '.' ∉ m.data) :
    (routeRecordNames rn cfg).Nodup ∧
    (routeRecordNames rn cfg).length =
      ((cfg.routing.getD []).length +
        (if cfg.action.isSome then 1 else 0)) * (normUris cfg).length := by
  have hts : ∀ t ∈ (cfg.routing.getD []).map Prod.fst ++
      (if cfg.action.isSome then ["*"] else []), '.' ∉ t.data := by
    intro t ht
    rw [List.mem_append] at ht
    rcases ht with ht | ht
    · exact hdot t ht
    · have hteq : t = "*" := by
        cases h : cfg.action.isSome <;> rw [h] at ht <;> simp_all
      rw [hteq]; decide
  have htnd : ((cfg.routing.getD []).map Prod.fst ++
      (if cfg.action.isSome then ["*"] else [])).Nodup := by
    rw [List.nodup_append]
    refine ⟨hnd, ?_, ?_⟩
    · cases cfg.action.isSome <;> simp
    · intro a ha hb
      cases h : cfg.action.isSome <;> rw [h] at hb
      · simp at hb
      · simp at hb
        exact hstar (hb ▸ ha)
  have hflat := expandRouter_flat_names rn cfg hnd hstar
  have hndflat : ((expandRouter rn cfg).flatMap (fun p =>
      (List.range (p.2.uris.getD []).length).map (nameOf p.1))).Nodup := by
    rw [hflat]
    exact nodup_flat_names rn (normUris cfg).length _ hts htnd
  have hnames : routeRecordNames rn cfg =
      ((cfg.routing.getD []).map Prod.fst ++
        (if cfg.action.isSome then ["*"] else [])).flatMap
        (fun t => (List.range (normUris cfg).length).map
          (nameOf (rn ++ "." ++ t))) := by
    unfold routeRecordNames
    rw [buildRouterInfos_names _ hndflat, hflat]
  constructor
  · rw [hnames]
    exact nodup_flat_names rn (normUris cfg).length _ hts htnd
  · rw [hnames, flat_names_length]
    rw [List.length_append, List.length_map]
    congr 2
    cases cfg.action.isSome <;> simp

/-- C1 (counterexample): a declaration with one method override (N = 1),
one URI (M = 1) and a generic action yields the two names `index.get` and
`index.*`, refuting the claimed exact count N × M = 1 for declarations
with overrides. -/
theorem c1_counterexample :
    routeRecordNames "index"
      { uri := "/", action := some 1, routing := some [("get", {})] } =
      ["index.get", "index.*"] ∧
    (routeRecordNames "index"
      { uri := "/", action := some 1,
        routing := some [("get", {})] }).length ≠ 1 * 1 := by
  decide

/-- C1 (witness): two overrides plus a generic action over three
normalized URIs give 9 = (2 + 1) × 3 pairwise-distinct names. -/
theorem c1_route_expansion_count_witness :
    (routeRecordNames "r"
      { uri := "/c", uris := some ["/a", "/b"],
        routing := some [("get", {}), ("post", {})],
        action := some 9 }).Nodup ∧
    (routeRecordNames "r"
      { uri := "/c", uris := some ["/a", "/b"],
        routing := some [("get", {}), ("post", {})],
        action := some 9 }).length = 9 := by
  have h := c1_route_expansion_count "r"
    { uri := "/c", uris := some ["/a", "/b"],
      routing := some [("get", {}), ("post", {})], action := some 9 }
    (by decide) (by decide) (by decide)
  exact ⟨h.1, by rw [h.2]; decide⟩

end BamgooWeb
